import Mathlib

set_option maxRecDepth 8192

/-!
Verification development for the kamelkross static storefront client.

The JavaScript modules `src/js/products.js` (catalog loading, CSV parsing,
image URL normalisation) and `src/js/cart.js` (cart store, persistence,
totals, order payload) are shallowly embedded below.  JavaScript numbers are
modelled as rationals (`ℚ`), plus explicit infinities where `parseFloat`
can produce them; strings are Lean `String`s (lists of Unicode scalar
values); the dynamic product objects built by `parseCSV` are association
lists from field names to typed field values; `localStorage` is an
association list from keys to strings, and `JSON.stringify`/`JSON.parse`
are modelled by an executable serializer/parser pair for the cart line-item
shape.  Case mapping (`toLowerCase`) is modelled on the ASCII range, which
covers every keyword the code compares against.
-/

/-! ## JavaScript string primitives -/

/-- The JavaScript whitespace set used by `String.prototype.trim` and the
regular-expression class `\s`: ASCII whitespace, NBSP, the Unicode space
separators, the line separators and the BOM. -/
def isJsWs (c : Char) : Bool :=
  let n := c.toNat
  n == 9 || n == 10 || n == 11 || n == 12 || n == 13 || n == 32 ||
  n == 160 || n == 0x1680 || (0x2000 ≤ n && n ≤ 0x200A) ||
  n == 0x2028 || n == 0x2029 || n == 0x202F || n == 0x205F ||
  n == 0x3000 || n == 0xFEFF

/-- `String.prototype.trim` on the underlying character list: drop
whitespace from both ends. -/
def trimData (cs : List Char) : List Char :=
  ((cs.dropWhile isJsWs).reverse.dropWhile isJsWs).reverse

/-- `String.prototype.trim`. -/
def jsTrim (s : String) : String :=
  String.mk (trimData s.data)

/-- ASCII case mapping, modelling `String.prototype.toLowerCase` on the
ASCII range (every keyword the source compares against is ASCII). -/
def jsToLowerChar (c : Char) : Char :=
  if 'A' ≤ c ∧ c ≤ 'Z' then Char.ofNat (c.toNat + 32) else c

/-- `String.prototype.toLowerCase` (ASCII model). -/
def jsToLower (s : String) : String :=
  String.mk (s.data.map jsToLowerChar)

/-- `String.prototype.split(sep)` for a one-character separator:
`"".split` gives one empty field, and every separator occurrence starts a
new field. -/
def splitChar (sep : Char) : List Char → List (List Char)
  | [] => [[]]
  | c :: cs =>
    if c = sep then [] :: splitChar sep cs
    else (splitChar sep cs).modifyHead (c :: ·)

/-- Substring containment, modelling `String.prototype.includes`. -/
def containsSubList (needle : List Char) : List Char → Bool
  | [] => needle.isPrefixOf []
  | c :: cs => needle.isPrefixOf (c :: cs) || containsSubList needle cs

/-- `url.includes(sub)`. -/
def jsIncludes (s sub : String) : Bool :=
  containsSubList sub.data s.data

/-! ## CSV line parser (`products.js`, `parseCSVLine`)

The source walks the line once with a `current` accumulator and an
`inQuotes` flag: a quote character toggles the flag (and is dropped), a
comma outside quotes ends the current field, everything else is appended;
each finished field is pushed through `trim`. -/

/-- The loop body of `parseCSVLine`: `cur` is the pending field text,
`vals` the fields already pushed, `inQ` the inside-quotes flag. -/
def parseCSVLineAux : List Char → List Char → List String → Bool → List String
  | [], cur, vals, _ => vals ++ [jsTrim (String.mk cur)]
  | c :: cs, cur, vals, inQ =>
    if c = '"' then
      parseCSVLineAux cs cur vals (!inQ)
    else if c = ',' ∧ inQ = false then
      parseCSVLineAux cs [] (vals ++ [jsTrim (String.mk cur)]) inQ
    else
      parseCSVLineAux cs (cur ++ [c]) vals inQ

/-- `Products.parseCSVLine`: split a CSV line into trimmed field values,
treating commas inside double quotes as literal. -/
def parseCSVLine (line : String) : List String :=
  parseCSVLineAux line.data [] [] false

/-- Reference splitter for the same grammar, written as a right-to-left
recursion with no accumulator: it returns the raw (untrimmed) fields, with
quote characters dropped and commas splitting only while outside quotes. -/
def rawSplitQuoted : List Char → Bool → List (List Char)
  | [], _ => [[]]
  | c :: cs, inQ =>
    if c = '"' then rawSplitQuoted cs (!inQ)
    else if c = ',' ∧ inQ = false then [] :: rawSplitQuoted cs false
    else (rawSplitQuoted cs inQ).modifyHead (c :: ·)

/-- Dropping trailing characters satisfying `p`. -/
def dropEndWhile (p : Char → Bool) (l : List Char) : List Char :=
  (l.reverse.dropWhile p).reverse

/-! ## JavaScript numbers and dynamic field values (`products.js`)

`parseFloat` can return any finite double, `Infinity`, `-Infinity` or
`NaN`.  Finite values are modelled as rationals; the infinities are
explicit constructors; `NaN` is modelled as parse failure (`none`), which
is adequate because every use site immediately applies `|| 0`. -/

inductive JsNum where
  | fin (q : ℚ)
  | posInf
  | negInf
deriving DecidableEq

/-- Numeric value of a list of decimal digit characters. -/
def digitsVal (ds : List Char) : ℕ :=
  ds.foldl (fun a c => 10 * a + (c.toNat - 48)) 0

/-- An optionally signed digit run (the exponent body of a float literal). -/
def parseSignedDigits (cs : List Char) : Option Int :=
  match cs with
  | '+' :: rest =>
    let ds := rest.takeWhile Char.isDigit
    if ds = [] then none else some (digitsVal ds)
  | '-' :: rest =>
    let ds := rest.takeWhile Char.isDigit
    if ds = [] then none else some (-(digitsVal ds : Int))
  | _ =>
    let ds := cs.takeWhile Char.isDigit
    if ds = [] then none else some (digitsVal ds)

/-- Exponent contribution of a float literal: `e`/`E` followed by a valid
signed digit run; an invalid exponent suffix is simply not part of the
longest valid prefix and contributes nothing. -/
def parseExp (cs : List Char) : Int :=
  match cs with
  | c :: rest => if c = 'e' ∨ c = 'E' then (parseSignedDigits rest).getD 0 else 0
  | [] => 0

/-- `10 ^ n` as a rational, via kernel-friendly natural-number power. -/
def qPowNat10 (n : ℕ) : ℚ := ((10 ^ n : ℕ) : ℚ)

/-- `10 ^ i` for an integer exponent, via kernel-friendly operations. -/
def qPow10 (i : Int) : ℚ :=
  match i with
  | .ofNat n => qPowNat10 n
  | .negSucc n => 1 / qPowNat10 (n + 1)

/-- The unsigned decimal part of a `parseFloat` literal
(`digits [. digits] [exp]` or `. digits [exp]`), longest valid prefix. -/
def parseDec (cs : List Char) : Option ℚ :=
  let ip := cs.takeWhile Char.isDigit
  let rest1 := cs.dropWhile Char.isDigit
  match rest1 with
  | '.' :: rest2 =>
    let fp := rest2.takeWhile Char.isDigit
    if ip = [] ∧ fp = [] then none
    else
      let rest3 := rest2.dropWhile Char.isDigit
      some (((digitsVal ip : ℚ) + (digitsVal fp : ℚ) / qPowNat10 fp.length) *
        qPow10 (parseExp rest3))
  | _ =>
    if ip = [] then none
    else some ((digitsVal ip : ℚ) * qPow10 (parseExp rest1))

/-- `parseFloat`: skip leading whitespace, take an optional sign, then
either the literal word `Infinity` or a decimal literal; `none` models
`NaN`. -/
def jsParseFloat (s : String) : Option JsNum :=
  let cs := s.data.dropWhile isJsWs
  match cs with
  | '-' :: rest =>
    if "Infinity".data.isPrefixOf rest then some JsNum.negInf
    else (parseDec rest).map (fun q => JsNum.fin (-q))
  | '+' :: rest =>
    if "Infinity".data.isPrefixOf rest then some JsNum.posInf
    else (parseDec rest).map JsNum.fin
  | _ =>
    if "Infinity".data.isPrefixOf cs then some JsNum.posInf
    else (parseDec cs).map JsNum.fin

/-- `parseFloat(value) || 0`: `NaN` (and `±0`) collapse to `0`. -/
def numOr0 (s : String) : JsNum :=
  match jsParseFloat s with
  | none => JsNum.fin 0
  | some n => n

/-- A dynamic field value of a parsed product object. -/
inductive FieldVal where
  | vStr (s : String)
  | vNum (n : JsNum)
  | vList (l : List String)
  | vBool (b : Bool)
deriving DecidableEq

/-- JavaScript truthiness of a field value: the empty string and the
number `0` are falsy; arrays (as objects) are always truthy. -/
def jsTruthy : FieldVal → Bool
  | .vStr s => s != ""
  | .vNum (.fin q) => decide (q ≠ 0)
  | .vNum _ => true
  | .vList _ => true
  | .vBool b => b

/-- Truthiness of a possibly-absent property (`undefined` is falsy). -/
def truthyOpt : Option FieldVal → Bool
  | none => false
  | some v => jsTruthy v

/-- A parsed product object: an insertion-ordered association list from
field names to values. -/
abbrev Obj := List (String × FieldVal)

/-- Property read (`product[key]`). -/
def objGet (p : Obj) (k : String) : Option FieldVal :=
  List.lookup k p

/-- Property write (`product[key] = v`): overwrite in place if the key
exists, append otherwise. -/
def objSet (p : Obj) (k : String) (v : FieldVal) : Obj :=
  match p with
  | [] => [(k, v)]
  | (k0, v0) :: rest => if k0 = k then (k0, v) :: rest else (k0, v0) :: objSet rest k v

/-- `value.split(',').map(v => v.trim()).filter(v => v)`. -/
def splitTrimNonempty (s : String) : List String :=
  ((splitChar ',' s.data).map (fun cs => jsTrim (String.mk cs))).filter
    (fun v => v != "")

/-- `v.toLowerCase() === 'yes' || v.toLowerCase() === 'true' || v === '1'`. -/
def jsBoolCoerce (v : String) : Bool :=
  jsToLower v == "yes" || jsToLower v == "true" || v == "1"

/-- Collapse every maximal whitespace run into a single underscore
(`replace(/\s+/g, '_')`). -/
def replaceWsRuns : List Char → List Char
  | [] => []
  | c :: rest =>
    if isJsWs c then '_' :: replaceWsRuns (rest.dropWhile isJsWs)
    else c :: replaceWsRuns rest
termination_by cs => cs.length
decreasing_by
  · simp only [List.length_cons]
    have hle : ∀ l : List Char, (l.dropWhile isJsWs).length ≤ l.length := by
      intro l
      induction l with
      | nil => simp
      | cons c0 l0 ih =>
        by_cases h : isJsWs c0
        · rw [List.dropWhile, h]
          simpa using Nat.le_succ_of_le ih
        · rw [Bool.not_eq_true] at h
          rw [List.dropWhile, h]
    exact Nat.lt_succ_of_le (hle _)
  · simp only [List.length_cons]
    exact Nat.lt_succ_self _

/-- Header normalisation: `h.toLowerCase().trim().replace(/\s+/g, '_')`. -/
def normalizeHeader (h : String) : String :=
  String.mk (replaceWsRuns (jsTrim (jsToLower h)).data)

/-- Typed coercion applied to a raw field value according to the
(normalised) header name, as in the body of `parseCSV`'s `forEach`. -/
def coerceField (header : String) (value : String) : FieldVal :=
  if header = "price" ∨ header = "shipping" then .vNum (numOr0 value)
  else if header = "sizes" ∨ header = "colors" ∨ header = "images" then
    .vList (splitTrimNonempty value)
  else if header = "in_stock" ∨ header = "featured" then
    .vBool (jsBoolCoerce value)
  else .vStr value

/-- Build one product object from the header list and the row's values
(`values[index] || ''` reads a missing cell as the empty string). -/
def buildProduct (headers : List String) (values : List String) : Obj :=
  headers.enum.foldl
    (fun obj iv => objSet obj iv.2 (coerceField iv.2 (values.getD iv.1 "")))
    []

/-- The row-acceptance check of `parseCSV`:
`if (product.id && product.name && product.price)`. -/
def acceptedRow (p : Obj) : Bool :=
  truthyOpt (objGet p "id") && truthyOpt (objGet p "name") &&
    truthyOpt (objGet p "price")

/-- `csv.split('\n').filter(line => line.trim())`. -/
def csvLines (csv : String) : List String :=
  ((splitChar '\n' csv.data).map (fun cs => String.mk cs)).filter
    (fun l => jsTrim l != "")

/-- `Products.parseCSV`: fewer than two non-blank lines yield no products;
otherwise the first line provides normalised headers and every later line
is built into an object and kept only if it passes `acceptedRow`. -/
def parseCSV (csv : String) : List Obj :=
  match csvLines csv with
  | [] => []
  | [_] => []
  | l0 :: rest =>
    let headers := (parseCSVLine l0).map normalizeHeader
    rest.foldl
      (fun products line =>
        let p := buildProduct headers (parseCSVLine line)
        if acceptedRow p then products ++ [p] else products)
      []

/-- The data lines of a feed (everything after the header line, when the
feed has at least two non-blank lines). -/
def csvDataLines (csv : String) : List String :=
  match csvLines csv with
  | [] => []
  | [_] => []
  | _ :: rest => rest

/-- The normalised header names of a feed. -/
def csvHeaders (csv : String) : List String :=
  match csvLines csv with
  | [] => []
  | l0 :: _ => (parseCSVLine l0).map normalizeHeader

/-- Every data row of the feed built into an object, before acceptance
filtering. -/
def csvRawRows (csv : String) : List Obj :=
  (csvDataLines csv).map (fun line => buildProduct (csvHeaders csv) (parseCSVLine line))

/-! ## Catalog loader (`products.js`, `Products.fetch`)

`Products` is a singleton with mutable `items`, `categories` and `loaded`.
`fetch` is modelled as a state-transition function: the network is an
input (`some csvText` for a successful response body, `none` for a network
error or non-ok response, both of which reach the `catch` block).  The
third component of the result records whether a network request was
issued by this call. -/

structure ProductsState where
  items : List Obj
  categories : List FieldVal
  loaded : Bool
deriving DecidableEq

/-- The module's initial state: `items: [], categories: [], loaded: false`. -/
def initialProductsState : ProductsState := ⟨[], [], false⟩

/-- `Products.extractCategories`: the set of truthy `category` property
values in first-appearance order. -/
def extractCategories (items : List Obj) : List FieldVal :=
  items.foldl
    (fun cats p =>
      match objGet p "category" with
      | some v => if jsTruthy v then (if v ∈ cats then cats else cats ++ [v]) else cats
      | none => cats)
    []

/-- `Products.getDemoProducts()`, transcribed field by field. -/
def demoProducts : List Obj :=
  [ [("id", .vStr "tshirt-001"), ("name", .vStr "Classic Logo Tee"),
     ("description", .vStr "Premium cotton t-shirt featuring the iconic Kamel Kross logo. Comfortable fit with high-quality screen printing."),
     ("price", .vNum (.fin 450)), ("shipping", .vNum (.fin 75)),
     ("category", .vStr "T-Shirts"),
     ("sizes", .vList ["S", "M", "L", "XL", "XXL"]),
     ("colors", .vList ["Black", "White", "Navy"]),
     ("image", .vStr "https://images.unsplash.com/photo-1521572163474-6864f9cf17ab?w=600"),
     ("images", .vList ["https://images.unsplash.com/photo-1521572163474-6864f9cf17ab?w=600"]),
     ("in_stock", .vBool true), ("featured", .vBool true)],
    [("id", .vStr "tshirt-002"), ("name", .vStr "Urban Streetwear Tee"),
     ("description", .vStr "Bold streetwear design on soft-touch fabric. Stand out with this statement piece."),
     ("price", .vNum (.fin 550)), ("shipping", .vNum (.fin 75)),
     ("category", .vStr "T-Shirts"),
     ("sizes", .vList ["S", "M", "L", "XL"]),
     ("colors", .vList ["Black", "Grey"]),
     ("image", .vStr "https://images.unsplash.com/photo-1503341504253-dff4815485f1?w=600"),
     ("images", .vList ["https://images.unsplash.com/photo-1503341504253-dff4815485f1?w=600"]),
     ("in_stock", .vBool true), ("featured", .vBool true)],
    [("id", .vStr "tshirt-003"), ("name", .vStr "Limited Edition Graphic Tee"),
     ("description", .vStr "Exclusive limited edition design. Premium heavyweight cotton."),
     ("price", .vNum (.fin 650)), ("shipping", .vNum (.fin 75)),
     ("category", .vStr "T-Shirts"),
     ("sizes", .vList ["M", "L", "XL"]),
     ("colors", .vList ["Black"]),
     ("image", .vStr "https://images.unsplash.com/photo-1583743814966-8936f5b7be1a?w=600"),
     ("images", .vList ["https://images.unsplash.com/photo-1583743814966-8936f5b7be1a?w=600"]),
     ("in_stock", .vBool true), ("featured", .vBool true)],
    [("id", .vStr "cap-001"), ("name", .vStr "Signature Snapback"),
     ("description", .vStr "Adjustable snapback cap with embroidered Kamel Kross logo. One size fits most."),
     ("price", .vNum (.fin 350)), ("shipping", .vNum (.fin 50)),
     ("category", .vStr "Caps"),
     ("sizes", .vList ["One Size"]),
     ("colors", .vList ["Black", "Navy", "Khaki"]),
     ("image", .vStr "https://images.unsplash.com/photo-1588850561407-ed78c282e89b?w=600"),
     ("images", .vList ["https://images.unsplash.com/photo-1588850561407-ed78c282e89b?w=600"]),
     ("in_stock", .vBool true), ("featured", .vBool true)],
    [("id", .vStr "cap-002"), ("name", .vStr "Dad Cap - Minimal"),
     ("description", .vStr "Relaxed fit dad cap with subtle branding. Curved brim, adjustable strap."),
     ("price", .vNum (.fin 299)), ("shipping", .vNum (.fin 50)),
     ("category", .vStr "Caps"),
     ("sizes", .vList ["One Size"]),
     ("colors", .vList ["Black", "White", "Olive"]),
     ("image", .vStr "https://images.unsplash.com/photo-1521369909029-2afed882baee?w=600"),
     ("images", .vList ["https://images.unsplash.com/photo-1521369909029-2afed882baee?w=600"]),
     ("in_stock", .vBool true), ("featured", .vBool true)],
    [("id", .vStr "cap-003"), ("name", .vStr "Trucker Cap"),
     ("description", .vStr "Classic trucker style with mesh back. Perfect for sunny days."),
     ("price", .vNum (.fin 320)), ("shipping", .vNum (.fin 50)),
     ("category", .vStr "Caps"),
     ("sizes", .vList ["One Size"]),
     ("colors", .vList ["Black/White", "Navy/White"]),
     ("image", .vStr "https://images.unsplash.com/photo-1534215754734-18e55d13e346?w=600"),
     ("images", .vList ["https://images.unsplash.com/photo-1534215754734-18e55d13e346?w=600"]),
     ("in_stock", .vBool true), ("featured", .vBool false)] ]

/-- One call of `Products.fetch`.  The guard is
`this.loaded && this.items.length > 0`.  On the success path the state is
replaced by the parsed catalog and `loaded` is set; on the failure path
(the `catch` block) the items become the demo set and the categories are
refreshed, but `loaded` is NOT assigned.  The Boolean result records
whether this call issued a network request. -/
def fetchStep (st : ProductsState) (net : Option String) :
    ProductsState × List Obj × Bool :=
  if st.loaded = true ∧ st.items ≠ [] then (st, st.items, false)
  else
    match net with
    | some csvText =>
      let items := parseCSV csvText
      (⟨items, extractCategories items, true⟩, items, true)
    | none =>
      let items := demoProducts
      (⟨items, extractCategories items, st.loaded⟩, items, true)

/-! ## Cart line items and JSON serialisation (`cart.js`)

`localStorage` is a key-to-string map; `JSON.stringify(this.items)` and
`JSON.parse(saved)` are modelled by an executable serializer/parser pair
for the line-item array shape.  JavaScript numbers are printed in plain
decimal notation (every finite double has a finite decimal expansion;
rationals outside that subset do not correspond to any double and print
as `null`, and JavaScript's switch to exponent notation below `1e-6` and
at `1e21` is outside the range of any value handled here). -/

/-- A cart line item, fields in the insertion order of the object literal
in `Cart.add` (which is also `JSON.stringify`'s output order). -/
structure CartItem where
  id : String
  name : String
  price : ℚ
  shipping : ℚ
  image : String
  size : String
  color : String
  quantity : ℚ
  category : String
deriving DecidableEq

/-- The opening brace character (written via its code point). -/
def lbrace : Char := Char.ofNat 123

/-- The closing brace character (written via its code point). -/
def rbrace : Char := Char.ofNat 125

/-- Decimal digit characters of `n`, most significant first. -/
def natToDecimal (n : ℕ) : List Char :=
  if n = 0 then ['0']
  else ((Nat.digits 10 n).map (fun d => Char.ofNat (48 + d))).reverse

/-- Pad with leading zeros to length at least `k`. -/
def leftPad0 (k : ℕ) (ds : List Char) : List Char :=
  List.replicate (k - ds.length) '0' ++ ds

/-- The least `k ≤ 1200` with `den ∣ 10^k`: the length of the finite
decimal expansion.  Every finite double's denominator is a power of two
not exceeding `2^1074`, so the bound is never hit for double values. -/
def decExpFind (q : ℚ) : Option ℕ :=
  (List.range 1201).find? (fun k => 10 ^ k % q.den == 0)

/-- Whether `q` has a finite decimal expansion within the modelled range. -/
def decOk (q : ℚ) : Bool :=
  (decExpFind q).isSome

/-- JavaScript's number-to-string conversion, restricted to plain decimal
notation: minimal number of fractional digits, `-` sign for negatives. -/
def jsNumToChars (q : ℚ) : List Char :=
  match decExpFind q with
  | none => "null".data
  | some k =>
    let m : ℕ := q.num.natAbs * (10 ^ k / q.den)
    let ds := leftPad0 (k + 1) (natToDecimal m)
    let ip := ds.take (ds.length - k)
    let fp := ds.drop (ds.length - k)
    (if q.num < 0 then ['-'] else []) ++ ip ++ (if k = 0 then [] else '.' :: fp)

/-- Lowercase hexadecimal digit. -/
def hexDigit (n : ℕ) : Char :=
  if n < 10 then Char.ofNat (48 + n) else Char.ofNat (87 + n)

/-- `JSON.stringify`'s escaping of one string character: quote, backslash
and the named control characters get two-character escapes, remaining
control characters get `\u00xx`, everything else is copied. -/
def escapeJsonChar (c : Char) : List Char :=
  if c = '"' then ['\\', '"']
  else if c = '\\' then ['\\', '\\']
  else if c = Char.ofNat 8 then ['\\', 'b']
  else if c = Char.ofNat 9 then ['\\', 't']
  else if c = Char.ofNat 10 then ['\\', 'n']
  else if c = Char.ofNat 12 then ['\\', 'f']
  else if c = Char.ofNat 13 then ['\\', 'r']
  else if c.toNat < 32 then
    ['\\', 'u', '0', '0', hexDigit (c.toNat / 16), hexDigit (c.toNat % 16)]
  else [c]

/-- Concatenated image of `f` over a character list. -/
def flatMapChars (f : Char → List Char) : List Char → List Char
  | [] => []
  | c :: cs => f c ++ flatMapChars f cs

/-- A JSON string literal for `s`. -/
def encodeJsonString (s : String) : List Char :=
  '"' :: flatMapChars escapeJsonChar s.data ++ ['"']

/-- One serialised line item: the nine fields in object-literal order. -/
def encodeItem (it : CartItem) : List Char :=
  [lbrace] ++ "\"id\":".data ++ encodeJsonString it.id ++
  ",\"name\":".data ++ encodeJsonString it.name ++
  ",\"price\":".data ++ jsNumToChars it.price ++
  ",\"shipping\":".data ++ jsNumToChars it.shipping ++
  ",\"image\":".data ++ encodeJsonString it.image ++
  ",\"size\":".data ++ encodeJsonString it.size ++
  ",\"color\":".data ++ encodeJsonString it.color ++
  ",\"quantity\":".data ++ jsNumToChars it.quantity ++
  ",\"category\":".data ++ encodeJsonString it.category ++ [rbrace]

/-- The serialised items separated by commas, with the closing bracket. -/
def encodeItemsInner : List CartItem → List Char
  | [] => [']']
  | [it] => encodeItem it ++ [']']
  | it :: its => encodeItem it ++ ',' :: encodeItemsInner its

/-- `JSON.stringify(items)`. -/
def encodeItems (items : List CartItem) : String :=
  String.mk ('[' :: encodeItemsInner items)

/-- Value of a JSON two-character escape. -/
def unescapeChar (e : Char) : Option Char :=
  if e = '"' then some '"'
  else if e = '\\' then some '\\'
  else if e = '/' then some '/'
  else if e = 'b' then some (Char.ofNat 8)
  else if e = 'f' then some (Char.ofNat 12)
  else if e = 'n' then some (Char.ofNat 10)
  else if e = 'r' then some (Char.ofNat 13)
  else if e = 't' then some (Char.ofNat 9)
  else none

/-- Hexadecimal digit value. -/
def parseHexDigit (c : Char) : Option ℕ :=
  if '0' ≤ c ∧ c ≤ '9' then some (c.toNat - 48)
  else if 'a' ≤ c ∧ c ≤ 'f' then some (c.toNat - 87)
  else if 'A' ≤ c ∧ c ≤ 'F' then some (c.toNat - 55)
  else none

/-- Body of a JSON string literal (after the opening quote), fuelled by
the input length: returns the decoded characters and the rest of the
input after the closing quote. -/
def parseJsonStringAux : ℕ → List Char → Option (List Char × List Char)
  | 0, _ => none
  | _ + 1, [] => none
  | fuel + 1, c :: rest =>
    if c = '"' then some ([], rest)
    else if c = '\\' then
      match rest with
      | [] => none
      | e :: rest2 =>
        if e = 'u' then
          match rest2 with
          | a :: b :: c2 :: d :: rest3 =>
            match parseHexDigit a, parseHexDigit b, parseHexDigit c2, parseHexDigit d with
            | some ha, some hb, some hc, some hd =>
              (parseJsonStringAux fuel rest3).map
                (fun sr => (Char.ofNat (((ha * 16 + hb) * 16 + hc) * 16 + hd) :: sr.1, sr.2))
            | _, _, _, _ => none
          | _ => none
        else
          match unescapeChar e with
          | some u => (parseJsonStringAux fuel rest2).map (fun sr => (u :: sr.1, sr.2))
          | none => none
    else (parseJsonStringAux fuel rest).map (fun sr => (c :: sr.1, sr.2))

/-- A JSON string literal. -/
def parseJsonStr (cs : List Char) : Option (String × List Char) :=
  match cs with
  | '"' :: rest =>
    (parseJsonStringAux (rest.length + 1) rest).map (fun sr => (String.mk sr.1, sr.2))
  | _ => none

/-- A JSON number in plain decimal notation (the only form the encoder
emits). -/
def parseJsonNumber (cs : List Char) : Option (ℚ × List Char) :=
  let neg : Bool := cs.head? = some '-'
  let cs1 := if neg then cs.tail else cs
  let ip := cs1.takeWhile Char.isDigit
  let cs2 := cs1.dropWhile Char.isDigit
  if ip = [] then none
  else if cs2.head? = some '.' then
    let fp := cs2.tail.takeWhile Char.isDigit
    if fp = [] then none
    else
      let v : ℚ := (digitsVal ip : ℚ) + (digitsVal fp : ℚ) / qPowNat10 fp.length
      some ((if neg then -v else v), cs2.tail.dropWhile Char.isDigit)
  else
    some ((if neg then -(digitsVal ip : ℚ) else (digitsVal ip : ℚ)), cs2)

/-- Expect a literal character sequence. -/
def expectLit (lit cs : List Char) : Option (List Char) :=
  if lit.isPrefixOf cs then some (cs.drop lit.length) else none

/-- A labelled string field: the literal label followed by a JSON
string. -/
def parseStrField (label cs : List Char) : Option (String × List Char) :=
  match expectLit label cs with
  | none => none
  | some cs1 => parseJsonStr cs1

/-- A labelled number field: the literal label followed by a JSON
number. -/
def parseNumField (label cs : List Char) : Option (ℚ × List Char) :=
  match expectLit label cs with
  | none => none
  | some cs1 => parseJsonNumber cs1

/-- One serialised line item. -/
def parseItem (cs : List Char) : Option (CartItem × List Char) :=
  (parseStrField ([lbrace] ++ "\"id\":".data) cs).bind fun ridv =>
  (parseStrField ",\"name\":".data ridv.2).bind fun rnamev =>
  (parseNumField ",\"price\":".data rnamev.2).bind fun rpricev =>
  (parseNumField ",\"shipping\":".data rpricev.2).bind fun rshippingv =>
  (parseStrField ",\"image\":".data rshippingv.2).bind fun rimagev =>
  (parseStrField ",\"size\":".data rimagev.2).bind fun rsizev =>
  (parseStrField ",\"color\":".data rsizev.2).bind fun rcolorv =>
  (parseNumField ",\"quantity\":".data rcolorv.2).bind fun rquantityv =>
  (parseStrField ",\"category\":".data rquantityv.2).bind fun rcategoryv =>
  (expectLit [rbrace] rcategoryv.2).bind fun cs10 =>
  some (⟨ridv.1, rnamev.1, rpricev.1, rshippingv.1, rimagev.1, rsizev.1,
    rcolorv.1, rquantityv.1, rcategoryv.1⟩, cs10)

/-- A comma-separated sequence of serialised items up to the closing
bracket, fuelled by the input length. -/
def parseItemsAux : ℕ → List Char → Option (List CartItem × List Char)
  | 0, _ => none
  | fuel + 1, cs =>
    match parseItem cs with
    | none => none
    | some (it, rest) =>
      match rest with
      | ']' :: rest2 => some ([it], rest2)
      | ',' :: rest2 => (parseItemsAux fuel rest2).map (fun p => (it :: p.1, p.2))
      | _ => none

/-- `JSON.parse` for the serialised line-item array shape (strict: no
surrounding whitespace, exactly the encoder's grammar). -/
def decodeItems (s : String) : Option (List CartItem) :=
  match s.data with
  | '[' :: cs =>
    if cs = [']'] then some []
    else
      match parseItemsAux (cs.length + 1) cs with
      | some (its, []) => some its
      | _ => none
  | _ => none

/-! ## Cart store (`cart.js`) -/

/-- `localStorage`: an insertion-ordered map from keys to strings. -/
abbrev Store := List (String × String)

/-- `localStorage.setItem`. -/
def storeSet (st : Store) (k v : String) : Store :=
  match st with
  | [] => [(k, v)]
  | (k0, v0) :: rest => if k0 = k then (k0, v) :: rest else (k0, v0) :: storeSet rest k v

/-- `localStorage.getItem` (`none` models `null`). -/
def storeGet (st : Store) (k : String) : Option String :=
  List.lookup k st

/-- `Cart.STORAGE_KEY`. -/
def STORAGE_KEY : String := "kamelkross_cart"

/-- The cart singleton's mutable state: its `items` array and the
backing `localStorage`. -/
structure CartState where
  items : List CartItem
  storage : Store
deriving DecidableEq

/-- `Cart.save()`: persist the serialised items under the storage key.
(The cart-count badge update is a DOM effect outside this model.) -/
def cartSave (st : CartState) : CartState :=
  { st with storage := storeSet st.storage STORAGE_KEY (encodeItems st.items) }

/-- `Cart.load()`: read the storage key; a missing, empty or unparsable
value yields an empty items array. -/
def cartLoad (st : CartState) : CartState :=
  { st with items :=
      match storeGet st.storage STORAGE_KEY with
      | none => []
      | some s => if s = "" then [] else (decodeItems s).getD [] }

/-- The product argument of `Cart.add`: the properties the method reads.
`shipping` is optional, reflecting `product.shipping || 0`. -/
structure CartProduct where
  id : String
  name : String
  price : ℚ
  shipping : Option ℚ
  image : String
  category : String

/-- The new line item built by `Cart.add` for a product/size/color
selection. -/
def cartItemOf (p : CartProduct) (size color : String) (quantity : ℚ) : CartItem :=
  ⟨p.id, p.name, p.price, p.shipping.getD 0, p.image, size, color, quantity, p.category⟩

/-- The `findIndex` predicate of `Cart.add`: same id, size and color. -/
def matchesLine (p : CartProduct) (size color : String) (it : CartItem) : Bool :=
  it.id == p.id && it.size == size && it.color == color

/-- `Array.prototype.findIndex`. -/
def jsFindIndex (pr : α → Bool) : List α → Option ℕ
  | [] => none
  | x :: xs => if pr x then some 0 else (jsFindIndex pr xs).map (· + 1)

/-- In-place update of the element at an index (out-of-range: no-op). -/
def modifyIdx : List α → ℕ → (α → α) → List α
  | [], _, _ => []
  | x :: xs, 0, f => f x :: xs
  | x :: xs, n + 1, f => x :: modifyIdx xs n f

/-- `Cart.add(product, size, color, quantity)`: increment the quantity of
the existing line with the same (id, size, color), or append a new line;
then persist.  (The returned line item and the toast notification are
observable effects not modelled here.) -/
def cartAdd (st : CartState) (p : CartProduct) (size color : String)
    (quantity : ℚ) : CartState :=
  let items' :=
    match jsFindIndex (matchesLine p size color) st.items with
    | some i => modifyIdx st.items i
        (fun it => { it with quantity := it.quantity + quantity })
    | none => st.items ++ [cartItemOf p size color quantity]
  cartSave { st with items := items' }

/-- `Cart.remove(index)`: delete the line at the index if in bounds, then
persist; out-of-bounds indices leave the state untouched. -/
def cartRemove (st : CartState) (index : Int) : CartState :=
  if 0 ≤ index ∧ index < (st.items.length : Int) then
    cartSave { st with items := st.items.eraseIdx index.toNat }
  else st

/-- `Cart.updateQuantity(index, quantity)`: in bounds, a non-positive
quantity delegates to `remove`, otherwise the quantity is overwritten in
place and persisted; out-of-bounds indices leave the state untouched. -/
def cartUpdateQuantity (st : CartState) (index : Int) (quantity : ℚ) : CartState :=
  if 0 ≤ index ∧ index < (st.items.length : Int) then
    if quantity ≤ 0 then cartRemove st index
    else
      let setQty := fun (it : CartItem) => { it with quantity := quantity }
      cartSave { st with items := modifyIdx st.items index.toNat setQty }
  else st

/-- `Cart.clear()`. -/
def cartClear (st : CartState) : CartState :=
  cartSave { st with items := [] }

/-- `Cart.getItemCount()`. -/
def getItemCount (st : CartState) : ℚ :=
  st.items.foldl (fun total it => total + it.quantity) 0

/-- `Cart.getSubtotal()`: `reduce((t, item) => t + item.price * item.quantity, 0)`. -/
def getSubtotal (st : CartState) : ℚ :=
  st.items.foldl (fun total it => total + it.price * it.quantity) 0

/-- `Cart.getShipping()`: `reduce((t, item) => t + item.shipping * item.quantity, 0)`. -/
def getShipping (st : CartState) : ℚ :=
  st.items.foldl (fun total it => total + it.shipping * it.quantity) 0

/-- `Cart.getTotal()`. -/
def getTotal (st : CartState) : ℚ :=
  getSubtotal st + getShipping st

/-- `Cart.isEmpty()`. -/
def cartIsEmpty (st : CartState) : Bool :=
  st.items.length == 0

/-- A snapshot entry of the order payload: exactly id, name, size, color,
quantity and price — no shipping, no image. -/
structure OrderItem where
  id : String
  name : String
  size : String
  color : String
  quantity : ℚ
  price : ℚ
deriving DecidableEq

/-- `CONFIG.store.currency` from `config.js`. -/
def CONFIG_store_currency : String := "ZAR"

/-- The order payload assembled by `Cart.prepareOrderData`; the customer
info is caller-supplied and opaque. -/
structure OrderPayload (γ : Type) where
  customer : γ
  items : List OrderItem
  subtotal : ℚ
  shipping : ℚ
  total : ℚ
  currency : String
  timestamp : String

/-- `Cart.prepareOrderData(customerInfo)`: a snapshot of the current cart
plus totals, currency and a caller-time timestamp (`new Date()` is an
external input here).  The method reads but never assigns the cart state,
so the state is returned unchanged alongside the payload. -/
def prepareOrderData {γ : Type} (st : CartState) (customerInfo : γ)
    (now : String) : OrderPayload γ × CartState :=
  (⟨customerInfo,
    st.items.map (fun it => ⟨it.id, it.name, it.size, it.color, it.quantity, it.price⟩),
    getSubtotal st, getShipping st, getTotal st, CONFIG_store_currency, now⟩,
   st)

/-- The cart mutations of §4.4 (add / remove / updateQuantity / clear). -/
inductive CartOp where
  | add (p : CartProduct) (size color : String) (quantity : ℚ)
  | remove (index : Int)
  | update (index : Int) (quantity : ℚ)
  | clear

/-- Apply one cart mutation. -/
def applyCartOp (st : CartState) : CartOp → CartState
  | .add p size color q => cartAdd st p size color q
  | .remove i => cartRemove st i
  | .update i q => cartUpdateQuantity st i q
  | .clear => cartClear st

/-- The variant key of a line item. -/
def lineKey (it : CartItem) : String × String × String :=
  (it.id, it.size, it.color)

/-- The uniqueness invariant: at most one line item per distinct
(product id, size, color) triple. -/
def CartInv (items : List CartItem) : Prop :=
  (items.map lineKey).Nodup

/-! ### Cart lemmas and claims -/

/-- Concrete cart with the spec's worked example: prices 100 and 50,
shipping 10 and 5, quantities 2 and 1. -/
def exampleCart : CartState :=
  ⟨[⟨"p1", "Tee A", 100, 10, "imgA", "M", "Black", 2, "T-Shirts"⟩,
    ⟨"p2", "Cap B", 50, 5, "imgB", "One Size", "Navy", 1, "Caps"⟩], []⟩

/-- A concrete product for the add examples. -/
def exampleProduct : CartProduct :=
  ⟨"tshirt-001", "Classic Logo Tee", 450, some 75, "img", "T-Shirts"⟩

/-! ## Image URL resolver (`products.js`, `convertGoogleDriveUrl`)

The three `String.match` regular expressions are modelled as leftmost
scanners: `/\/file\/d\/([^\/]+)/`, `/[?&]id=([^&]+)/` and
`/\/uc\?.*id=([^&]+)/`.  For the third, the greedy `.*` (which does not
cross a newline) selects the LAST viable `id=` in the newline-free window
after `/uc?`.  As in the source, a later pattern's match overwrites an
earlier one's. -/

/-- Leftmost match: try the pattern at every start position. -/
def scanMatch (f : List Char → Option (List Char)) : List Char → Option (List Char)
  | [] => f []
  | c :: cs =>
    match f (c :: cs) with
    | some r => some r
    | none => scanMatch f cs

/-- `/\/file\/d\/([^\/]+)/` anchored at the current position. -/
def fileAt (cs : List Char) : Option (List Char) :=
  if "/file/d/".data.isPrefixOf cs then
    let cap := (cs.drop 8).takeWhile (fun c => c ≠ '/')
    if cap = [] then none else some cap
  else none

/-- `url.match(/\/file\/d\/([^\/]+)/)`: the captured file id. -/
def fileMatch (url : String) : Option (List Char) :=
  scanMatch fileAt url.data

/-- `/[?&]id=([^&]+)/` anchored at the current position. -/
def openAt (cs : List Char) : Option (List Char) :=
  match cs with
  | [] => none
  | c :: rest =>
    if (c = '?' ∨ c = '&') ∧ "id=".data.isPrefixOf rest then
      let cap := (rest.drop 3).takeWhile (fun ch => ch ≠ '&')
      if cap = [] then none else some cap
    else none

/-- `url.match(/[?&]id=([^&]+)/)`: the captured file id. -/
def openMatch (url : String) : Option (List Char) :=
  scanMatch openAt url.data

/-- The last viable `id=([^&]+)` start in the newline-free window (the
greedy `.*` of the third pattern). -/
def lastIdScan : List Char → Option (List Char) → Option (List Char)
  | [], acc => acc
  | c :: rest, acc =>
    if c = '\n' then acc
    else
      let here :=
        if "id=".data.isPrefixOf (c :: rest) then
          let cap := ((c :: rest).drop 3).takeWhile (fun ch => ch ≠ '&')
          if cap = [] then none else some cap
        else none
      lastIdScan rest (match here with | some x => some x | none => acc)

/-- `/\/uc\?.*id=([^&]+)/` anchored at the current position. -/
def ucAt (cs : List Char) : Option (List Char) :=
  if "/uc?".data.isPrefixOf cs then lastIdScan (cs.drop 4) none else none

/-- `url.match(/\/uc\?.*id=([^&]+)/)`: the captured file id. -/
def ucMatch (url : String) : Option (List Char) :=
  scanMatch ucAt url.data

/-- `Products.convertGoogleDriveUrl`: empty input returns the empty
string; a URL not containing `drive.google.com` passes through; otherwise
the file id is extracted (a later pattern overriding an earlier one) and,
if found, embedded into the fixed-width thumbnail URL; with no id the
original URL is returned.  The function is total — it never throws. -/
def convertGoogleDriveUrl (url : String) : String :=
  if url = "" then ""
  else if jsIncludes url "drive.google.com" = false then url
  else
    let fileId :=
      match ucMatch url with
      | some x => some x
      | none =>
        match openMatch url with
        | some x => some x
        | none => fileMatch url
    match fileId with
    | some fid =>
      "https://drive.google.com/thumbnail?id=" ++ String.mk fid ++ "&sz=w800"
    | none => url

/-- The character after an encoded number in the item grammar: not a
digit and not a decimal point (so the number parser stops exactly there). -/
def numBoundary : List Char → Bool
  | [] => true
  | c :: _ => !c.isDigit && c != '.'


/-! ## Theorems -/

theorem rawSplitQuoted_ne_nil (cs : List Char) (inQ : Bool) :
    rawSplitQuoted cs inQ ≠ [] := by
  induction cs generalizing inQ with
  | nil => simp [rawSplitQuoted]
  | cons c cs ih =>
    unfold rawSplitQuoted
    split
    · exact ih _
    · split
      · simp
      · cases h : rawSplitQuoted cs inQ with
        | nil => exact absurd h (ih inQ)
        | cons a l => simp [List.modifyHead]

/-- The accumulator-passing loop agrees with the reference splitter:
the pending prefix `cur` is glued onto the head of the remaining raw
fields, and every finished field is trimmed. -/
theorem parseCSVLineAux_eq (cs : List Char) :
    ∀ (cur : List Char) (vals : List String) (inQ : Bool),
      parseCSVLineAux cs cur vals inQ =
        vals ++ ((rawSplitQuoted cs inQ).modifyHead (cur ++ ·)).map
          (fun f => jsTrim (String.mk f)) := by
  induction cs with
  | nil =>
    intro cur vals inQ
    simp [parseCSVLineAux, rawSplitQuoted, List.modifyHead]
  | cons c cs ih =>
    intro cur vals inQ
    unfold parseCSVLineAux rawSplitQuoted
    split
    · exact ih cur vals (!inQ)
    · split
      · rename_i hcq
        obtain ⟨hc, hq⟩ := hcq
        subst hq
        rw [ih [] (vals ++ [jsTrim (String.mk cur)])]
        cases h : rawSplitQuoted cs false with
        | nil => exact absurd h (rawSplitQuoted_ne_nil cs false)
        | cons a l => simp [List.modifyHead]
      · rw [ih (cur ++ [c]) vals]
        cases h : rawSplitQuoted cs inQ with
        | nil => exact absurd h (rawSplitQuoted_ne_nil cs inQ)
        | cons a l => simp [List.modifyHead]

/-- `parseCSVLine` is the composition of the raw quote-aware splitter with
per-field trimming. -/
theorem parseCSVLine_eq_raw (line : String) :
    parseCSVLine line =
      (rawSplitQuoted line.data false).map (fun f => jsTrim (String.mk f)) := by
  rw [parseCSVLine, parseCSVLineAux_eq]
  cases h : rawSplitQuoted line.data false with
  | nil => exact absurd h (rawSplitQuoted_ne_nil line.data false)
  | cons a l => simp [List.modifyHead]

/-! ### Elementary facts about `dropWhile`, used for trimming -/

theorem dropWhile_dropWhile (p : Char → Bool) (l : List Char) :
    (l.dropWhile p).dropWhile p = l.dropWhile p := by
  induction l with
  | nil => rfl
  | cons c l ih =>
    by_cases h : p c
    · simp [List.dropWhile, h, ih]
    · simp [List.dropWhile, h]

theorem dropWhile_suffix_ex (p : Char → Bool) (l : List Char) :
    ∃ t, t ++ l.dropWhile p = l := by
  induction l with
  | nil => exact ⟨[], rfl⟩
  | cons c l ih =>
    by_cases h : p c
    · obtain ⟨t, ht⟩ := ih
      exact ⟨c :: t, by simp [List.dropWhile, h, ht]⟩
    · exact ⟨[], by simp [List.dropWhile, h]⟩

theorem dropWhile_length_le (p : Char → Bool) (l : List Char) :
    (l.dropWhile p).length ≤ l.length := by
  induction l with
  | nil => simp
  | cons c l ih =>
    by_cases h : p c
    · rw [List.dropWhile, h]
      simpa using Nat.le_succ_of_le ih
    · rw [Bool.not_eq_true] at h
      rw [List.dropWhile, h]

theorem dropWhile_cons_self (p : Char → Bool) (c : Char) (l : List Char)
    (h : (c :: l).dropWhile p = c :: l) : p c = false := by
  by_cases hp : p c
  · exfalso
    have hlen : (List.dropWhile p l).length ≤ l.length :=
      dropWhile_length_le p l
    rw [List.dropWhile, hp] at h
    have := congrArg List.length h
    simp at this
    omega
  · simpa using hp

theorem trimData_eq (cs : List Char) :
    trimData cs = dropEndWhile isJsWs (cs.dropWhile isJsWs) := rfl

theorem dropEndWhile_prefix_ex (p : Char → Bool) (l : List Char) :
    ∃ t, dropEndWhile p l ++ t = l := by
  obtain ⟨t, ht⟩ := dropWhile_suffix_ex p l.reverse
  refine ⟨t.reverse, ?_⟩
  have := congrArg List.reverse ht
  simpa [dropEndWhile] using this

theorem dropEndWhile_dropEndWhile (p : Char → Bool) (l : List Char) :
    dropEndWhile p (dropEndWhile p l) = dropEndWhile p l := by
  simp [dropEndWhile, dropWhile_dropWhile]

theorem dropWhile_dropEndWhile (p : Char → Bool) (l : List Char)
    (h : l.dropWhile p = l) :
    (dropEndWhile p l).dropWhile p = dropEndWhile p l := by
  cases hd : dropEndWhile p l with
  | nil => rfl
  | cons c z =>
    obtain ⟨t, ht⟩ := dropEndWhile_prefix_ex p l
    rw [hd] at ht
    have hc : p c = false := by
      apply dropWhile_cons_self p c (z ++ t)
      have : l = c :: (z ++ t) := by rw [← ht]; simp
      rw [this] at h
      exact h
    simp [List.dropWhile, hc]

/-- `jsTrim` is idempotent. -/
theorem trimData_idem (cs : List Char) :
    trimData (trimData cs) = trimData cs := by
  rw [trimData_eq, trimData_eq]
  have h1 : (cs.dropWhile isJsWs).dropWhile isJsWs = cs.dropWhile isJsWs :=
    dropWhile_dropWhile _ _
  rw [dropWhile_dropEndWhile _ _ h1, dropEndWhile_dropEndWhile]

theorem jsTrim_idem (s : String) : jsTrim (jsTrim s) = jsTrim s := by
  cases s with
  | mk data => simp [jsTrim, trimData_idem]

theorem mem_dropWhile_subset (p : Char → Bool) (l : List Char) {c : Char}
    (h : c ∈ l.dropWhile p) : c ∈ l := by
  obtain ⟨t, ht⟩ := dropWhile_suffix_ex p l
  rw [← ht]
  exact List.mem_append_right t h

theorem mem_trimData_subset (cs : List Char) {c : Char}
    (h : c ∈ trimData cs) : c ∈ cs := by
  rw [trimData] at h
  rw [List.mem_reverse] at h
  have h2 := mem_dropWhile_subset _ _ h
  rw [List.mem_reverse] at h2
  exact mem_dropWhile_subset _ _ h2

/-- No field produced by the raw quote-aware splitter contains a double
quote: the quote characters only toggle the state and are dropped. -/
theorem rawSplitQuoted_no_quote (cs : List Char) :
    ∀ (inQ : Bool) (f : List Char), f ∈ rawSplitQuoted cs inQ → '"' ∉ f := by
  induction cs with
  | nil =>
    intro inQ f hf
    simp [rawSplitQuoted] at hf
    simp [hf]
  | cons c cs ih =>
    intro inQ f hf
    unfold rawSplitQuoted at hf
    split at hf
    · exact ih _ f hf
    · split at hf
      · rw [List.mem_cons] at hf
        rcases hf with rfl | hf
        · simp
        · exact ih _ f hf
      · rename_i hcq hcm
        cases hraw : rawSplitQuoted cs inQ with
        | nil => exact absurd hraw (rawSplitQuoted_ne_nil cs inQ)
        | cons a l =>
          rw [hraw, List.modifyHead, List.mem_cons] at hf
          rcases hf with rfl | hf
          · intro hmem
            rcases List.mem_cons.mp hmem with h1 | h1
            · exact hcq h1.symm
            · exact ih inQ a (by rw [hraw]; exact List.mem_cons_self a l) h1
          · exact ih inQ f (by rw [hraw]; exact List.mem_cons_of_mem a hf)

/-- C4: the CSV line parser splits fields only on commas outside a
double-quoted span, each quote character toggles the inside-quotes state
(no escaped-quote handling), and each extracted field is
whitespace-trimmed; in particular `a,"b,c",d` parses to the three fields
`a`, `b,c`, `d`. -/
theorem parseCSVLine_quoted_split_spec :
    (∀ line : String, parseCSVLine line =
        (rawSplitQuoted line.data false).map (fun f => jsTrim (String.mk f))) ∧
    (∀ (line f : String), f ∈ parseCSVLine line → jsTrim f = f) ∧
    parseCSVLine "a,\"b,c\",d" = ["a", "b,c", "d"] := by
  refine ⟨parseCSVLine_eq_raw, ?_, by decide⟩
  intro line f hf
  rw [parseCSVLine_eq_raw] at hf
  obtain ⟨g, _, rfl⟩ := List.mem_map.mp hf
  exact jsTrim_idem _

/-- Witness for C4: the trimming clause applied to a concrete line. -/
theorem parseCSVLine_quoted_split_spec_witness :
    jsTrim "b" = "b" :=
  parseCSVLine_quoted_split_spec.2.1 "a, b " "b" (by decide)

/-- C10: no field returned by the CSV line parser contains a double-quote
character — every quote toggles the state and is dropped from the output. -/
theorem parseCSVLine_no_quote_in_fields :
    ∀ (line f : String), f ∈ parseCSVLine line → '"' ∉ f.data := by
  intro line f hf
  rw [parseCSVLine_eq_raw] at hf
  obtain ⟨g, hg, rfl⟩ := List.mem_map.mp hf
  intro hmem
  have : ('"' : Char) ∈ g := mem_trimData_subset g hmem
  exact rawSplitQuoted_no_quote line.data false g hg this

/-- Witness for C10: a field that contained a quote in the input comes
back with the quote stripped. -/
theorem parseCSVLine_no_quote_in_fields_witness :
    '"' ∉ ("ab" : String).data :=
  parseCSVLine_no_quote_in_fields "a\"b" "ab" (by decide)

theorem parseCSV_foldl (headers : List String) (lines : List String) :
    ∀ acc : List Obj,
      lines.foldl (fun products line =>
          let p := buildProduct headers (parseCSVLine line)
          if acceptedRow p then products ++ [p] else products) acc
        = acc ++ (lines.map
            (fun line => buildProduct headers (parseCSVLine line))).filter
              acceptedRow := by
  induction lines with
  | nil => intro acc; simp
  | cons l lines ih =>
    intro acc
    by_cases h : acceptedRow (buildProduct headers (parseCSVLine l)) <;>
      simp [List.filter_cons, h, ih]

/-- C1 (amended): a data row is accepted into the catalog iff its `id`,
`name` and `price` properties are all JavaScript-truthy; the empty string,
a missing property and the number `0` are all falsy, so a price of zero
(or a missing/unparsable price, which coerces to zero) EXCLUDES the row,
while non-empty id and name are required as the claim states. -/
theorem parseCSV_row_acceptance :
    (∀ csv : String, parseCSV csv = (csvRawRows csv).filter acceptedRow) ∧
    (∀ p : Obj, acceptedRow p = true ↔
        (truthyOpt (objGet p "id") = true ∧ truthyOpt (objGet p "name") = true ∧
         truthyOpt (objGet p "price") = true)) ∧
    truthyOpt (some (.vNum (.fin 0))) = false ∧
    truthyOpt none = false ∧
    (∀ s : String, truthyOpt (some (.vStr s)) = true ↔ s ≠ "") := by
  refine ⟨?_, ?_, by with_unfolding_all rfl, rfl, ?_⟩
  · intro csv
    rw [parseCSV, csvRawRows, csvDataLines, csvHeaders]
    cases h : csvLines csv with
    | nil => simp
    | cons l0 rest =>
      cases rest with
      | nil => simp
      | cons l1 rest2 =>
        by_cases hx : acceptedRow
            (buildProduct ((parseCSVLine l0).map normalizeHeader)
              (parseCSVLine l1)) <;>
          simp [parseCSV_foldl, List.filter_cons, hx]
  · intro p
    simp [acceptedRow, Bool.and_eq_true, and_assoc]
  · intro s
    simp [truthyOpt, jsTruthy, bne_iff_ne]

/-- C1 counterexample: the feed `id,name,price\nsku-1,Tee,0` has one data
row with non-empty id, non-empty name and a present price field holding
`0`, yet `parseCSV` drops it — zero-price rows are not accepted. -/
theorem parseCSV_zero_price_counterexample :
    parseCSV "id,name,price\nsku-1,Tee,0" = [] ∧
    csvRawRows "id,name,price\nsku-1,Tee,0" =
      [[("id", .vStr "sku-1"), ("name", .vStr "Tee"),
        ("price", .vNum (.fin 0))]] := by
  constructor <;> with_unfolding_all rfl

/-- C2 (amended): the cache guard is `loaded && items nonempty`.  After a
SUCCESSFUL load with a nonempty parse, every later call returns the cached
list without issuing a fetch; but the failure path never sets `loaded`,
so after a fallback the next call issues a fetch again — a failed fetch IS
retried within the session. -/
theorem fetch_cache_spec :
    (∀ (st : ProductsState) (net : Option String),
        st.loaded = true → st.items ≠ [] →
        fetchStep st net = (st, st.items, false)) ∧
    (∀ (st : ProductsState) (net : Option String),
        st.loaded = false → (fetchStep st net).2.2 = true) ∧
    (∀ (st : ProductsState) (csv : String) (net2 : Option String),
        st.loaded = false → parseCSV csv ≠ [] →
        fetchStep (fetchStep st (some csv)).1 net2 =
          ((fetchStep st (some csv)).1, parseCSV csv, false)) ∧
    (∀ (st : ProductsState), (fetchStep st none).1.loaded = st.loaded) := by
  refine ⟨?_, ?_, ?_, ?_⟩
  · intro st net h1 h2
    simp [fetchStep, h1, h2]
  · intro st net h
    cases net <;> simp [fetchStep, h]
  · intro st csv net2 h1 h2
    have hfirst : (fetchStep st (some csv)).1 =
        ⟨parseCSV csv, extractCategories (parseCSV csv), true⟩ := by
      simp [fetchStep, h1]
    rw [hfirst]
    simp [fetchStep, h2]
  · intro st
    by_cases h : st.loaded = true ∧ st.items ≠ [] <;> simp [fetchStep, h]

/-- Witness for C2's amended theorem: a cached state is returned as-is
without a fetch, and an unloaded state always fetches. -/
theorem fetch_cache_spec_witness :
    fetchStep ⟨[[("id", FieldVal.vStr "x")]], [], true⟩ none =
      (⟨[[("id", FieldVal.vStr "x")]], [], true⟩, [[("id", FieldVal.vStr "x")]], false) ∧
    (fetchStep initialProductsState none).2.2 = true :=
  ⟨fetch_cache_spec.1 ⟨[[("id", FieldVal.vStr "x")]], [], true⟩ none rfl (by simp),
   fetch_cache_spec.2.1 initialProductsState none rfl⟩

/-- C2 counterexample: starting from the initial state, a failed first
load falls back to the demo catalog but leaves `loaded` false, so the
second call issues another network fetch — and a then-successful fetch
replaces the fallback list.  This contradicts the claim that after a
fallback no further fetch happens in the session. -/
theorem fetch_failed_retry_counterexample :
    (fetchStep initialProductsState none).1.items = demoProducts ∧
    (fetchStep initialProductsState none).1.loaded = false ∧
    (fetchStep (fetchStep initialProductsState none).1 none).2.2 = true ∧
    (fetchStep (fetchStep initialProductsState none).1
        (some "id,name,price\nsku-9,Tee,5")).1.items.length = 1 ∧
    demoProducts.length = 6 := by
  refine ⟨by with_unfolding_all rfl, by with_unfolding_all rfl,
    by with_unfolding_all rfl, by with_unfolding_all rfl, rfl⟩

theorem foldl_add_eq_sum (f : CartItem → ℚ) (l : List CartItem) :
    ∀ a : ℚ, l.foldl (fun t it => t + f it) a = a + (l.map f).sum := by
  induction l with
  | nil => intro a; simp
  | cons x l ih => intro a; simp [List.foldl_cons, ih, add_assoc]

/-- C5: `getSubtotal` is the sum of price × quantity, `getShipping` the
sum of shipping × quantity, `getTotal` their sum; the spec's worked
example evaluates to 250 / 25 / 275. -/
theorem cart_totals_spec :
    (∀ st : CartState,
        getSubtotal st = (st.items.map (fun it => it.price * it.quantity)).sum) ∧
    (∀ st : CartState,
        getShipping st = (st.items.map (fun it => it.shipping * it.quantity)).sum) ∧
    (∀ st : CartState, getTotal st = getSubtotal st + getShipping st) ∧
    getSubtotal exampleCart = 250 ∧ getShipping exampleCart = 25 ∧
    getTotal exampleCart = 275 := by
  refine ⟨?_, ?_, fun st => rfl, by with_unfolding_all rfl,
    by with_unfolding_all rfl, by with_unfolding_all rfl⟩
  · intro st
    simpa [getSubtotal] using foldl_add_eq_sum (fun it => it.price * it.quantity) st.items 0
  · intro st
    simpa [getShipping] using foldl_add_eq_sum (fun it => it.shipping * it.quantity) st.items 0

/-- C6: `updateQuantity` removes the line when in bounds with quantity
≤ 0, overwrites the quantity in place when in bounds with a positive
quantity, and is a complete no-op out of bounds; `remove` is likewise a
no-op out of bounds. -/
theorem cart_update_remove_bounds_spec :
    (∀ (st : CartState) (i : Int) (q : ℚ),
        0 ≤ i → i < (st.items.length : Int) → q ≤ 0 →
        (cartUpdateQuantity st i q).items = st.items.eraseIdx i.toNat) ∧
    (∀ (st : CartState) (i : Int) (q : ℚ),
        0 ≤ i → i < (st.items.length : Int) → 0 < q →
        (cartUpdateQuantity st i q).items =
          modifyIdx st.items i.toNat (fun it => { it with quantity := q })) ∧
    (∀ (st : CartState) (i : Int) (q : ℚ),
        ¬(0 ≤ i ∧ i < (st.items.length : Int)) → cartUpdateQuantity st i q = st) ∧
    (∀ (st : CartState) (i : Int),
        ¬(0 ≤ i ∧ i < (st.items.length : Int)) → cartRemove st i = st) := by
  refine ⟨?_, ?_, ?_, ?_⟩
  · intro st i q h1 h2 h3
    simp [cartUpdateQuantity, cartRemove, cartSave, h1, h2, h3]
  · intro st i q h1 h2 h3
    have h4 : ¬(q ≤ 0) := not_le.mpr h3
    simp [cartUpdateQuantity, cartSave, h1, h2, h4]
  · intro st i q h
    simp [cartUpdateQuantity, h]
  · intro st i h
    simp [cartRemove, h]

/-- Witness for C6 at concrete states: in-bounds removal via quantity 0,
and out-of-bounds update/remove as no-ops. -/
theorem cart_update_remove_bounds_spec_witness :
    (cartUpdateQuantity exampleCart 0 0).items = exampleCart.items.eraseIdx 0 ∧
    cartUpdateQuantity exampleCart 5 3 = exampleCart ∧
    cartRemove exampleCart (-1) = exampleCart :=
  ⟨cart_update_remove_bounds_spec.1 exampleCart 0 0 (by decide) (by decide)
      (by simp),
   cart_update_remove_bounds_spec.2.2.1 exampleCart 5 3 (by decide),
   cart_update_remove_bounds_spec.2.2.2 exampleCart (-1) (by decide)⟩

/-- C9: building the order payload returns the cart state unchanged, and
the payload's item list is the per-line snapshot of exactly id, name,
size, color, quantity and price (the `OrderItem` shape has no shipping
and no image field), one entry per cart line. -/
theorem prepareOrderData_frame_spec :
    ∀ (γ : Type) (st : CartState) (info : γ) (now : String),
      (prepareOrderData st info now).2 = st ∧
      (prepareOrderData st info now).1.items =
        st.items.map (fun it =>
          OrderItem.mk it.id it.name it.size it.color it.quantity it.price) ∧
      (prepareOrderData st info now).1.items.length = st.items.length ∧
      (prepareOrderData st info now).1.customer = info ∧
      (prepareOrderData st info now).1.timestamp = now := by
  intro γ st info now
  exact ⟨rfl, rfl, by simp [prepareOrderData], rfl, rfl⟩

theorem modifyIdx_map_of_key (l : List CartItem) (f : CartItem → CartItem)
    (hf : ∀ x, lineKey (f x) = lineKey x) :
    ∀ i : ℕ, (modifyIdx l i f).map lineKey = l.map lineKey := by
  induction l with
  | nil => intro i; rfl
  | cons x xs ih =>
    intro i
    cases i with
    | zero => simp [modifyIdx, hf]
    | succ n => simp [modifyIdx, ih]

theorem modifyIdx_length (l : List CartItem) (f : CartItem → CartItem) :
    ∀ i : ℕ, (modifyIdx l i f).length = l.length := by
  induction l with
  | nil => intro i; rfl
  | cons x xs ih =>
    intro i
    cases i with
    | zero => simp [modifyIdx]
    | succ n => simp [modifyIdx, ih]

theorem jsFindIndex_none_iff (pr : α → Bool) (l : List α) :
    jsFindIndex pr l = none ↔ ∀ x ∈ l, pr x = false := by
  induction l with
  | nil => simp [jsFindIndex]
  | cons x xs ih =>
    by_cases h : pr x <;> simp [jsFindIndex, h, ih]

/-- `cartAdd` preserves the uniqueness invariant. -/
theorem cartAdd_inv (st : CartState) (p : CartProduct) (size color : String)
    (q : ℚ) (h : CartInv st.items) :
    CartInv (cartAdd st p size color q).items := by
  rw [CartInv]
  cases hf : jsFindIndex (matchesLine p size color) st.items with
  | some i =>
    have hitems : (cartAdd st p size color q).items =
        modifyIdx st.items i (fun it => { it with quantity := it.quantity + q }) := by
      show (match jsFindIndex (matchesLine p size color) st.items with
        | some j => modifyIdx st.items j
            (fun it => { it with quantity := it.quantity + q })
        | none => st.items ++ [cartItemOf p size color q]) = _
      rw [hf]
    rw [hitems,
      modifyIdx_map_of_key st.items
        (fun it => { it with quantity := it.quantity + q }) (fun x => rfl) i]
    exact h
  | none =>
    have hitems : (cartAdd st p size color q).items =
        st.items ++ [cartItemOf p size color q] := by
      show (match jsFindIndex (matchesLine p size color) st.items with
        | some j => modifyIdx st.items j
            (fun it => { it with quantity := it.quantity + q })
        | none => st.items ++ [cartItemOf p size color q]) = _
      rw [hf]
    rw [hitems, List.map_append]
    rw [List.nodup_append]
    refine ⟨h, by simp, ?_⟩
    intro a ha
    simp only [List.map_cons, List.map_nil, List.mem_singleton]
    intro heq
    obtain ⟨it, hit, hkey⟩ := List.mem_map.mp ha
    have hall := (jsFindIndex_none_iff _ _).mp hf it hit
    rw [heq] at hkey
    have : matchesLine p size color it = true := by
      simp only [matchesLine]
      have h1 : it.id = p.id := congrArg (fun t => t.1) hkey
      have h2 : it.size = size := congrArg (fun t => t.2.1) hkey
      have h3 : it.color = color := congrArg (fun t => t.2.2) hkey
      simp [h1, h2, h3]
    rw [hall] at this
    exact Bool.false_ne_true this

/-- Every single cart mutation preserves the uniqueness invariant. -/
theorem applyCartOp_inv (st : CartState) (op : CartOp) (h : CartInv st.items) :
    CartInv ((applyCartOp st op).items) := by
  have eraseCase : ∀ (i : Int), CartInv ((cartRemove st i).items) := by
    intro i
    rw [cartRemove]
    by_cases hb : 0 ≤ i ∧ i < (st.items.length : Int)
    · rw [if_pos hb]
      show CartInv (st.items.eraseIdx i.toNat)
      have hsub : List.Sublist ((st.items.eraseIdx i.toNat).map lineKey)
          (st.items.map lineKey) :=
        (List.eraseIdx_sublist st.items i.toNat).map lineKey
      exact List.Nodup.sublist hsub h
    · rw [if_neg hb]; exact h
  cases op with
  | add p size color q => exact cartAdd_inv st p size color q h
  | remove i => exact eraseCase i
  | update i q =>
    show CartInv ((cartUpdateQuantity st i q).items)
    rw [cartUpdateQuantity]
    by_cases hb : 0 ≤ i ∧ i < (st.items.length : Int)
    · rw [if_pos hb]
      by_cases hq : q ≤ 0
      · rw [if_pos hq]; exact eraseCase i
      · rw [if_neg hq]
        show CartInv (modifyIdx st.items i.toNat
          (fun it => { it with quantity := q }))
        rw [CartInv,
          modifyIdx_map_of_key st.items (fun it => { it with quantity := q })
            (fun x => rfl) i.toNat]
        exact h
    · rw [if_neg hb]; exact h
  | clear =>
    show CartInv ([] : List CartItem)
    simp [CartInv]

/-- C3: adding with an existing (id, size, color) line increments that
line's quantity in place (no append, same length); with no existing line
exactly one new line is appended; every sequence of cart mutations
preserves the at-most-one-line-per-triple invariant; and adding the same
triple with quantities 2 then 3 yields one line with quantity 5. -/
theorem cart_add_unique_line_spec :
    (∀ (st : CartState) (p : CartProduct) (size color : String) (q : ℚ),
        jsFindIndex (matchesLine p size color) st.items = none →
        (cartAdd st p size color q).items = st.items ++ [cartItemOf p size color q]) ∧
    (∀ (st : CartState) (p : CartProduct) (size color : String) (q : ℚ) (i : ℕ),
        jsFindIndex (matchesLine p size color) st.items = some i →
        (cartAdd st p size color q).items =
          modifyIdx st.items i (fun it => { it with quantity := it.quantity + q }) ∧
        (cartAdd st p size color q).items.length = st.items.length) ∧
    (∀ (st : CartState) (op : CartOp), CartInv st.items →
        CartInv ((applyCartOp st op).items)) ∧
    (∀ (ops : List CartOp) (st : CartState), CartInv st.items →
        CartInv ((ops.foldl applyCartOp st).items)) ∧
    (cartAdd (cartAdd ⟨[], []⟩ exampleProduct "M" "Black" 2)
        exampleProduct "M" "Black" 3).items
      = [cartItemOf exampleProduct "M" "Black" 5] := by
  refine ⟨?_, ?_, applyCartOp_inv, ?_, by with_unfolding_all rfl⟩
  · intro st p size color q hf
    show (match jsFindIndex (matchesLine p size color) st.items with
      | some i => modifyIdx st.items i
          (fun it => { it with quantity := it.quantity + q })
      | none => st.items ++ [cartItemOf p size color q]) = _
    rw [hf]
  · intro st p size color q i hf
    have hitems : (cartAdd st p size color q).items =
        match jsFindIndex (matchesLine p size color) st.items with
        | some j => modifyIdx st.items j
            (fun it => { it with quantity := it.quantity + q })
        | none => st.items ++ [cartItemOf p size color q] := rfl
    rw [hitems, hf]
    exact ⟨rfl, modifyIdx_length _ _ _⟩
  · intro ops
    induction ops with
    | nil => intro st h; exact h
    | cons op ops ih =>
      intro st h
      exact ih _ (applyCartOp_inv st op h)

/-- Witness for C3: the invariant-preservation clauses applied to a
concrete two-add sequence from the empty cart. -/
theorem cart_add_unique_line_spec_witness :
    CartInv (([CartOp.add exampleProduct "M" "Black" 2,
        CartOp.add exampleProduct "M" "Black" 3].foldl applyCartOp
          ⟨[], []⟩).items) :=
  cart_add_unique_line_spec.2.2.2.1
    [CartOp.add exampleProduct "M" "Black" 2,
     CartOp.add exampleProduct "M" "Black" 3] ⟨[], []⟩ (by simp [CartInv])

/-- C7: the resolver passes a non-share-link URL through unchanged,
passes any URL through unchanged when no pattern extracts an id, and for
a path-embedded share link (`.../file/d/ID/...`, with no overriding
query-parameter id) returns the fixed-width thumbnail URL embedding
exactly the captured id; concretely for `ABC123`, and concretely for a
non-drive URL.  Totality of the model reflects that it never throws. -/
theorem convert_drive_url_spec :
    (∀ url : String, jsIncludes url "drive.google.com" = false →
        convertGoogleDriveUrl url = url) ∧
    (∀ url : String, fileMatch url = none → openMatch url = none →
        ucMatch url = none → convertGoogleDriveUrl url = url) ∧
    (∀ (url : String) (fid : List Char),
        jsIncludes url "drive.google.com" = true →
        fileMatch url = some fid → openMatch url = none → ucMatch url = none →
        convertGoogleDriveUrl url =
          "https://drive.google.com/thumbnail?id=" ++ String.mk fid ++ "&sz=w800") ∧
    convertGoogleDriveUrl "https://drive.google.com/file/d/ABC123/view" =
      "https://drive.google.com/thumbnail?id=ABC123&sz=w800" ∧
    convertGoogleDriveUrl "https://example.com/pic.png" =
      "https://example.com/pic.png" := by
  refine ⟨?_, ?_, ?_, by with_unfolding_all rfl, by with_unfolding_all rfl⟩
  · intro url h
    by_cases hu : url = ""
    · rw [hu]; rfl
    · simp [convertGoogleDriveUrl, hu, h]
  · intro url h1 h2 h3
    by_cases hu : url = ""
    · rw [hu]; rfl
    · by_cases hinc : jsIncludes url "drive.google.com" = false
      · simp [convertGoogleDriveUrl, hu, hinc]
      · simp [convertGoogleDriveUrl, hu, hinc, h1, h2, h3]
  · intro url fid hinc h1 h2 h3
    have hu : url ≠ "" := by
      intro hu
      rw [hu] at h1
      simp [fileMatch, scanMatch, fileAt] at h1
    simp [convertGoogleDriveUrl, hu, hinc, h1, h2, h3]

/-- Witness for C7: the pass-through and extraction clauses applied at
concrete URLs. -/
theorem convert_drive_url_spec_witness :
    convertGoogleDriveUrl "https://example.com/a.png" = "https://example.com/a.png" ∧
    convertGoogleDriveUrl "https://drive.google.com/file/d/XYZ/view" =
      "https://drive.google.com/thumbnail?id=" ++ String.mk "XYZ".data ++ "&sz=w800" :=
  ⟨convert_drive_url_spec.1 "https://example.com/a.png" (by decide),
   convert_drive_url_spec.2.2.1 "https://drive.google.com/file/d/XYZ/view"
     "XYZ".data (by decide) (by decide) (by decide) (by decide)⟩

/-! ### Round-trip lemmas for the JSON layer (claim C8) -/

theorem storeGet_storeSet (st : Store) (k v : String) :
    storeGet (storeSet st k v) k = some v := by
  induction st with
  | nil => simp [storeSet, storeGet, List.lookup]
  | cons kv rest ih =>
    obtain ⟨k0, v0⟩ := kv
    by_cases h : k0 = k
    · subst h
      simp [storeSet, storeGet, List.lookup]
    · rw [storeSet, if_neg h, storeGet, List.lookup]
      have hbeq : (k == k0) = false := beq_eq_false_iff_ne.mpr (Ne.symm h)
      rw [hbeq]
      exact ih

theorem digit_char_isDigit (d : ℕ) (h : d < 10) :
    (Char.ofNat (48 + d)).isDigit = true := by
  interval_cases d <;> decide

theorem digit_char_toNat (d : ℕ) (h : d < 10) :
    (Char.ofNat (48 + d)).toNat = 48 + d := by
  interval_cases d <;> decide

theorem isDigit_ne_dash (c : Char) (h : c.isDigit = true) : c ≠ '-' := by
  intro he
  rw [he] at h
  exact absurd h (by decide)

theorem isDigit_ne_dot (c : Char) (h : c.isDigit = true) : c ≠ '.' := by
  intro he
  rw [he] at h
  exact absurd h (by decide)

theorem foldr_horner (L : List ℕ) :
    L.foldr (fun d a => 10 * a + d) 0 = Nat.ofDigits 10 L := by
  induction L with
  | nil => simp [Nat.ofDigits]
  | cons d L ih =>
    rw [List.foldr_cons, ih, Nat.ofDigits_cons]
    omega

theorem digitsVal_snoc (xs : List Char) (c : Char) :
    digitsVal (xs ++ [c]) = 10 * digitsVal xs + (c.toNat - 48) := by
  rw [digitsVal, digitsVal, List.foldl_append]
  rfl

theorem digitsVal_revMap (L : List ℕ) (hL : ∀ d ∈ L, d < 10) :
    digitsVal ((L.map (fun d => Char.ofNat (48 + d))).reverse) =
      Nat.ofDigits 10 L := by
  induction L with
  | nil => rfl
  | cons d L ih =>
    rw [List.map_cons, List.reverse_cons, digitsVal_snoc,
      ih (fun x hx => hL x (List.mem_cons_of_mem d hx)),
      digit_char_toNat d (hL d (List.mem_cons_self d L)), Nat.ofDigits_cons]
    omega

theorem digitsVal_natToDecimal (n : ℕ) : digitsVal (natToDecimal n) = n := by
  rw [natToDecimal]
  by_cases h : n = 0
  · subst h; decide
  · rw [if_neg h,
      digitsVal_revMap _ (fun d hd => Nat.digits_lt_base (by norm_num) hd)]
    exact Nat.ofDigits_digits 10 n

theorem natToDecimal_all_digits (n : ℕ) :
    ∀ c ∈ natToDecimal n, c.isDigit = true := by
  rw [natToDecimal]
  by_cases h : n = 0
  · subst h
    intro c hc
    simp at hc
    subst hc
    decide
  · rw [if_neg h]
    intro c hc
    rw [List.mem_reverse] at hc
    obtain ⟨d, hd, rfl⟩ := List.mem_map.mp hc
    exact digit_char_isDigit d (Nat.digits_lt_base (by norm_num) hd)

theorem digitsVal_pad (j : ℕ) (xs : List Char) :
    digitsVal (List.replicate j '0' ++ xs) = digitsVal xs := by
  induction j with
  | zero => simp
  | succ j ih =>
    rw [List.replicate_succ, List.cons_append, digitsVal, List.foldl_cons]
    have hz : 10 * 0 + ('0'.toNat - 48) = 0 := by decide
    rw [hz]
    exact ih

theorem takeWhile_append_all (p : Char → Bool) (xs ys : List Char)
    (hx : ∀ c ∈ xs, p c = true)
    (hy : ∀ c, ys.head? = some c → p c = false) :
    (xs ++ ys).takeWhile p = xs ∧ (xs ++ ys).dropWhile p = ys := by
  induction xs with
  | nil =>
    cases ys with
    | nil => exact ⟨rfl, rfl⟩
    | cons c ys =>
      have hc := hy c rfl
      simp [List.takeWhile, List.dropWhile, hc]
  | cons x xs ih =>
    have hx0 : p x = true := hx x (List.mem_cons_self x xs)
    have ih2 := ih (fun c hc => hx c (List.mem_cons_of_mem x hc))
    simp [List.takeWhile, List.dropWhile, hx0, ih2.1, ih2.2]

theorem numBoundary_head (rest : List Char) (hb : numBoundary rest = true) :
    ∀ c, rest.head? = some c → c.isDigit = false ∧ c ≠ '.' := by
  cases rest with
  | nil => intro c hc; simp at hc
  | cons c0 r =>
    intro c hc
    simp [List.head?] at hc
    subst hc
    rw [numBoundary, Bool.and_eq_true] at hb
    refine ⟨by simpa using hb.1, by simpa [bne_iff_ne] using hb.2⟩

theorem digitsVal_shift (ys : List Char) :
    ∀ a : ℕ, ys.foldl (fun x c => 10 * x + (c.toNat - 48)) a
      = a * 10 ^ ys.length + digitsVal ys := by
  induction ys with
  | nil => intro a; simp [digitsVal]
  | cons c ys ih =>
    intro a
    rw [List.foldl_cons, ih (10 * a + (c.toNat - 48))]
    have hdv : digitsVal (c :: ys) =
        (10 * 0 + (c.toNat - 48)) * 10 ^ ys.length + digitsVal ys := by
      rw [digitsVal, List.foldl_cons]
      exact ih _
    rw [hdv, List.length_cons, pow_succ]
    ring

theorem digitsVal_append (xs ys : List Char) :
    digitsVal (xs ++ ys) = digitsVal xs * 10 ^ ys.length + digitsVal ys := by
  rw [digitsVal, List.foldl_append, ← digitsVal]
  exact digitsVal_shift ys (digitsVal xs)

theorem leftPad0_length (k : ℕ) (xs : List Char) :
    (leftPad0 k xs).length = max k xs.length := by
  rw [leftPad0]
  simp [List.length_append, List.length_replicate]
  omega

theorem leftPad0_all_digits (k : ℕ) (xs : List Char)
    (hx : ∀ c ∈ xs, c.isDigit = true) :
    ∀ c ∈ leftPad0 k xs, c.isDigit = true := by
  intro c hc
  rw [leftPad0, List.mem_append] at hc
  rcases hc with hc | hc
  · rw [List.eq_of_mem_replicate hc]
    decide
  · exact hx c hc

theorem digitsVal_leftPad0 (k : ℕ) (xs : List Char) :
    digitsVal (leftPad0 k xs) = digitsVal xs :=
  digitsVal_pad _ _


theorem digitsVal_nil : digitsVal [] = 0 := rfl

theorem parseJsonNumber_core (neg : Bool) (ip fp rest : List Char) (k : ℕ)
    (hipd : ∀ c ∈ ip, c.isDigit = true) (hipne : ip ≠ [])
    (hfpd : ∀ c ∈ fp, c.isDigit = true) (hfplen : fp.length = k)
    (hb : numBoundary rest = true) :
    parseJsonNumber ((if neg then ['-'] else []) ++
        (ip ++ ((if k = 0 then [] else '.' :: fp) ++ rest))) =
      some ((if neg then
          -((digitsVal ip : ℚ) + (digitsVal fp : ℚ) / qPowNat10 k)
        else ((digitsVal ip : ℚ) + (digitsVal fp : ℚ) / qPowNat10 k)), rest) := by
  obtain ⟨c0, ip', rfl⟩ : ∃ c0 ip', ip = c0 :: ip' := by
    cases ip with
    | nil => exact absurd rfl hipne
    | cons a b => exact ⟨a, b, rfl⟩
  have hc0 : c0.isDigit = true := hipd c0 (List.mem_cons_self c0 ip')
  have hc0d : c0 ≠ '-' := isDigit_ne_dash c0 hc0
  have hmidh : ∀ c, ((if k = 0 then [] else '.' :: fp) ++ rest).head? = some c →
      Char.isDigit c = false := by
    by_cases hk0 : k = 0
    · rw [if_pos hk0, List.nil_append]
      intro c hc
      exact (numBoundary_head rest hb c hc).1
    · rw [if_neg hk0, List.cons_append]
      intro c hc
      simp [List.head?] at hc
      subst hc
      decide
  have hTW := takeWhile_append_all Char.isDigit (c0 :: ip')
    ((if k = 0 then [] else '.' :: fp) ++ rest) hipd hmidh
  have hnotdot : ¬ (rest.head? = some '.') := fun hcc =>
    (numBoundary_head rest hb '.' hcc).2 rfl
  cases neg with
  | false =>
    rw [parseJsonNumber]
    simp only [List.cons_append] at hTW
    by_cases hk0 : k = 0
    · subst hk0
      obtain rfl : fp = [] := List.length_eq_zero.mp hfplen
      simp at hTW
      simp [hc0, hc0d, hTW.1, hTW.2, hnotdot, digitsVal_nil]
    · have hfpne : fp ≠ [] := by
        intro h0
        rw [h0] at hfplen
        exact hk0 (by simpa using hfplen.symm)
      have hTW2 := takeWhile_append_all Char.isDigit fp rest hfpd
        (fun c hc => (numBoundary_head rest hb c hc).1)
      simp [hk0] at hTW
      simp [hc0, hc0d, hTW.1, hTW.2, hk0, List.tail_cons, hTW2.1, hTW2.2,
        hfpne, hfplen]
  | true =>
    rw [parseJsonNumber]
    simp only [List.cons_append] at hTW
    by_cases hk0 : k = 0
    · subst hk0
      obtain rfl : fp = [] := List.length_eq_zero.mp hfplen
      simp at hTW
      simp [hc0, hc0d, hTW.1, hTW.2, hnotdot, digitsVal_nil]
    · have hfpne : fp ≠ [] := by
        intro h0
        rw [h0] at hfplen
        exact hk0 (by simpa using hfplen.symm)
      have hTW2 := takeWhile_append_all Char.isDigit fp rest hfpd
        (fun c hc => (numBoundary_head rest hb c hc).1)
      simp [hk0] at hTW
      simp [hc0, hc0d, hTW.1, hTW.2, hk0, List.tail_cons, hTW2.1, hTW2.2,
        hfpne, hfplen]

theorem decimal_value (q : ℚ) (k : ℕ) (hdvd : q.den ∣ 10 ^ k) :
    ((q.num.natAbs * (10 ^ k / q.den) : ℕ) : ℚ) = |q| * 10 ^ k := by
  have hden0 : (q.den : ℚ) ≠ 0 := by
    exact_mod_cast q.den_nz
  have h1 : ((q.num : ℚ)) = q * (q.den : ℚ) := by
    have h2 : ((q.num : ℚ)) / ((q.den : ℚ)) = q := Rat.num_div_den q
    rw [div_eq_iff hden0] at h2
    exact h2
  have hcast : ((q.num.natAbs : ℕ) : ℚ) = |((q.num : ℚ))| := by
    rw [Int.cast_natAbs]
    exact Int.cast_abs
  have habs : ((q.num.natAbs : ℚ)) = |q| * (q.den : ℚ) := by
    rw [hcast, h1, abs_mul, abs_of_nonneg (by positivity : (0:ℚ) ≤ (q.den : ℚ))]
  rw [Nat.cast_mul, Nat.cast_div hdvd hden0, habs]
  push_cast
  field_simp
  ring

theorem parseJsonNumber_encode (q : ℚ) (hq : decOk q = true) (rest : List Char)
    (hb : numBoundary rest = true) :
    parseJsonNumber (jsNumToChars q ++ rest) = some (q, rest) := by
  rw [decOk] at hq
  obtain ⟨k, hk⟩ := Option.isSome_iff_exists.mp hq
  have hdvd : q.den ∣ 10 ^ k := by
    have h1 := List.find?_some hk
    exact Nat.dvd_of_mod_eq_zero (by exact_mod_cast eq_of_beq h1)
  set m := q.num.natAbs * (10 ^ k / q.den) with hm
  set ds := leftPad0 (k + 1) (natToDecimal m) with hds
  set ip := ds.take (ds.length - k) with hip
  set fp := ds.drop (ds.length - k) with hfp
  have hjs : jsNumToChars q =
      (if q.num < 0 then ['-'] else []) ++ ip ++
        (if k = 0 then [] else '.' :: fp) := by
    rw [jsNumToChars, hk]
  have hdsd : ∀ c ∈ ds, c.isDigit = true :=
    leftPad0_all_digits _ _ (natToDecimal_all_digits m)
  have hdslen : k + 1 ≤ ds.length := by
    rw [hds, leftPad0_length]; omega
  have hipfp : ip ++ fp = ds := List.take_append_drop _ _
  have hfplen : fp.length = k := by
    rw [hfp, List.length_drop]; omega
  have hiplen : 1 ≤ ip.length := by
    rw [hip, List.length_take]; omega
  have hipne : ip ≠ [] := by
    intro h0; rw [h0] at hiplen; simp at hiplen
  have hipd : ∀ c ∈ ip, c.isDigit = true := fun c hc =>
    hdsd c (by rw [← hipfp]; exact List.mem_append_left fp hc)
  have hfpd : ∀ c ∈ fp, c.isDigit = true := fun c hc =>
    hdsd c (by rw [← hipfp]; exact List.mem_append_right ip hc)
  have hdsv : digitsVal ds = m := by
    rw [hds, digitsVal_leftPad0, digitsVal_natToDecimal]
  have hsplit : digitsVal ip * 10 ^ k + digitsVal fp = m := by
    have h2 := digitsVal_append ip fp
    rw [hipfp, hfplen, hdsv] at h2
    exact h2.symm
  have hqp : qPowNat10 k = ((10 ^ k : ℕ) : ℚ) := rfl
  have hpow : ((10 ^ k : ℕ) : ℚ) ≠ 0 :=
    Nat.cast_ne_zero.mpr (pow_ne_zero _ (by norm_num))
  have hval : (digitsVal ip : ℚ) + (digitsVal fp : ℚ) / qPowNat10 k = |q| := by
    have hc : (digitsVal ip : ℚ) * ((10 ^ k : ℕ) : ℚ) + (digitsVal fp : ℚ)
        = (m : ℚ) := by
      exact_mod_cast hsplit
    have hmq : (m : ℚ) = |q| * ((10 ^ k : ℕ) : ℚ) := by
      rw [hm]
      push_cast
      exact_mod_cast decimal_value q k hdvd
    rw [hqp]
    field_simp
    push_cast at hc hmq
    exact hc.trans hmq
  rw [hjs]
  by_cases hneg : q.num < 0
  · rw [if_pos hneg]
    have hcore := parseJsonNumber_core true ip fp rest k hipd hipne hfpd hfplen hb
    simp only [if_true] at hcore
    simp only [List.append_assoc, List.singleton_append, List.cons_append] at hcore ⊢
    rw [hcore, hval]
    have hq0 : q < 0 := by
      by_contra hcon
      push_neg at hcon
      exact absurd (Rat.num_nonneg.mpr hcon) (by omega)
    rw [abs_of_neg hq0, neg_neg]
  · rw [if_neg hneg]
    have hcore := parseJsonNumber_core false ip fp rest k hipd hipne hfpd hfplen hb
    simp only [Bool.false_eq_true, if_false] at hcore
    simp only [List.append_assoc, List.nil_append] at hcore ⊢
    rw [hcore, hval]
    have hq0 : (0:ℚ) ≤ q := Rat.num_nonneg.mp (by omega)
    rw [abs_of_nonneg hq0]

theorem parseHexDigit_hexDigit (n : ℕ) (h : n < 16) :
    parseHexDigit (hexDigit n) = some n := by
  interval_cases n <;> decide

theorem parseJsonStringAux_esc2 (c e : Char) (he : unescapeChar e = some c)
    (heu : e ≠ 'u') (tail rest : List Char) (fuel : ℕ) (cs : List Char)
    (hrec : parseJsonStringAux fuel tail = some (cs, rest)) :
    parseJsonStringAux (fuel + 1) ('\\' :: e :: tail) = some (c :: cs, rest) := by
  simp [parseJsonStringAux, heu, he, hrec]

theorem parseJsonStringAux_escU (c : Char) (hc : c.toNat < 32)
    (tail rest : List Char) (fuel : ℕ) (cs : List Char)
    (hrec : parseJsonStringAux fuel tail = some (cs, rest)) :
    parseJsonStringAux (fuel + 1)
      ('\\' :: 'u' :: '0' :: '0' :: hexDigit (c.toNat / 16) ::
        hexDigit (c.toNat % 16) :: tail) = some (c :: cs, rest) := by
  have hd1 : parseHexDigit (hexDigit (c.toNat / 16)) = some (c.toNat / 16) :=
    parseHexDigit_hexDigit _ (by omega)
  have hd2 : parseHexDigit (hexDigit (c.toNat % 16)) = some (c.toNat % 16) :=
    parseHexDigit_hexDigit _ (Nat.mod_lt _ (by norm_num))
  have h0 : parseHexDigit '0' = some 0 := by decide
  simp [parseJsonStringAux, hd1, hd2, h0, hrec]
  have harith : c.toNat / 16 * 16 + c.toNat % 16 = c.toNat := by
    omega
  rw [harith, Char.ofNat_toNat]

theorem parseJsonStringAux_escape (cs : List Char) :
    ∀ (rest : List Char) (fuel : ℕ),
      (flatMapChars escapeJsonChar cs).length + 1 ≤ fuel →
      parseJsonStringAux fuel (flatMapChars escapeJsonChar cs ++ '"' :: rest) =
        some (cs, rest) := by
  induction cs with
  | nil =>
    intro rest fuel hf
    simp only [flatMapChars] at hf ⊢
    obtain ⟨f, rfl⟩ : ∃ f, fuel = f + 1 := ⟨fuel - 1, by omega⟩
    simp [parseJsonStringAux]
  | cons c cs ih =>
    intro rest fuel hf
    simp only [flatMapChars] at hf ⊢
    rw [List.length_append] at hf
    by_cases h1 : c = '"'
    · subst h1
      rw [show escapeJsonChar '"' = ['\\', '"'] from rfl] at hf ⊢
      obtain ⟨f, rfl⟩ : ∃ f, fuel = f + 1 := ⟨fuel - 1, by omega⟩
      have hrec := ih rest f (by simp at hf ⊢; omega)
      simpa [List.cons_append] using
        parseJsonStringAux_esc2 '"' '"' rfl (by decide) _ rest f cs hrec
    by_cases h2 : c = '\\'
    · subst h2
      rw [show escapeJsonChar '\\' = ['\\', '\\'] from rfl] at hf ⊢
      obtain ⟨f, rfl⟩ : ∃ f, fuel = f + 1 := ⟨fuel - 1, by omega⟩
      have hrec := ih rest f (by simp at hf ⊢; omega)
      simpa [List.cons_append] using
        parseJsonStringAux_esc2 '\\' '\\' rfl (by decide) _ rest f cs hrec
    by_cases h3 : c = Char.ofNat 8
    · subst h3
      rw [show escapeJsonChar (Char.ofNat 8) = ['\\', 'b'] from rfl] at hf ⊢
      obtain ⟨f, rfl⟩ : ∃ f, fuel = f + 1 := ⟨fuel - 1, by omega⟩
      have hrec := ih rest f (by simp at hf ⊢; omega)
      simpa [List.cons_append] using
        parseJsonStringAux_esc2 (Char.ofNat 8) 'b' rfl (by decide) _ rest f cs hrec
    by_cases h4 : c = Char.ofNat 9
    · subst h4
      rw [show escapeJsonChar (Char.ofNat 9) = ['\\', 't'] from rfl] at hf ⊢
      obtain ⟨f, rfl⟩ : ∃ f, fuel = f + 1 := ⟨fuel - 1, by omega⟩
      have hrec := ih rest f (by simp at hf ⊢; omega)
      simpa [List.cons_append] using
        parseJsonStringAux_esc2 (Char.ofNat 9) 't' rfl (by decide) _ rest f cs hrec
    by_cases h5 : c = Char.ofNat 10
    · subst h5
      rw [show escapeJsonChar (Char.ofNat 10) = ['\\', 'n'] from rfl] at hf ⊢
      obtain ⟨f, rfl⟩ : ∃ f, fuel = f + 1 := ⟨fuel - 1, by omega⟩
      have hrec := ih rest f (by simp at hf ⊢; omega)
      simpa [List.cons_append] using
        parseJsonStringAux_esc2 (Char.ofNat 10) 'n' rfl (by decide) _ rest f cs hrec
    by_cases h6 : c = Char.ofNat 12
    · subst h6
      rw [show escapeJsonChar (Char.ofNat 12) = ['\\', 'f'] from rfl] at hf ⊢
      obtain ⟨f, rfl⟩ : ∃ f, fuel = f + 1 := ⟨fuel - 1, by omega⟩
      have hrec := ih rest f (by simp at hf ⊢; omega)
      simpa [List.cons_append] using
        parseJsonStringAux_esc2 (Char.ofNat 12) 'f' rfl (by decide) _ rest f cs hrec
    by_cases h7 : c = Char.ofNat 13
    · subst h7
      rw [show escapeJsonChar (Char.ofNat 13) = ['\\', 'r'] from rfl] at hf ⊢
      obtain ⟨f, rfl⟩ : ∃ f, fuel = f + 1 := ⟨fuel - 1, by omega⟩
      have hrec := ih rest f (by simp at hf ⊢; omega)
      simpa [List.cons_append] using
        parseJsonStringAux_esc2 (Char.ofNat 13) 'r' rfl (by decide) _ rest f cs hrec
    by_cases h8 : c.toNat < 32
    · have he : escapeJsonChar c =
          ['\\', 'u', '0', '0', hexDigit (c.toNat / 16), hexDigit (c.toNat % 16)] := by
        rw [escapeJsonChar, if_neg h1, if_neg h2, if_neg h3, if_neg h4, if_neg h5,
          if_neg h6, if_neg h7, if_pos h8]
      rw [he] at hf ⊢
      obtain ⟨f, rfl⟩ : ∃ f, fuel = f + 1 := ⟨fuel - 1, by omega⟩
      have hrec := ih rest f (by simp at hf ⊢; omega)
      simpa [List.cons_append] using
        parseJsonStringAux_escU c h8 _ rest f cs hrec
    · have he : escapeJsonChar c = [c] := by
        rw [escapeJsonChar, if_neg h1, if_neg h2, if_neg h3, if_neg h4, if_neg h5,
          if_neg h6, if_neg h7, if_neg h8]
      rw [he] at hf ⊢
      obtain ⟨f, rfl⟩ : ∃ f, fuel = f + 1 := ⟨fuel - 1, by omega⟩
      have hrec := ih rest f (by simp at hf ⊢; omega)
      simp [parseJsonStringAux, List.cons_append, h1, h2, hrec]

theorem parseJsonStr_encode (s : String) (rest : List Char) :
    parseJsonStr (encodeJsonString s ++ rest) = some (s, rest) := by
  have e1 : encodeJsonString s ++ rest =
      '"' :: (flatMapChars escapeJsonChar s.data ++ '"' :: rest) := by
    simp [encodeJsonString, List.append_assoc]
  rw [e1, parseJsonStr]
  rw [parseJsonStringAux_escape s.data rest _
    (by simp [List.length_append])]
  simp

theorem expectLit_append (lit X : List Char) :
    expectLit lit (lit ++ X) = some X := by
  rw [expectLit, if_pos, List.drop_left]
  rw [List.isPrefixOf_iff_prefix]
  exact List.prefix_append lit X

theorem parseStrField_encode (label : List Char) (s : String) (X : List Char) :
    parseStrField label (label ++ (encodeJsonString s ++ X)) = some (s, X) := by
  rw [parseStrField, expectLit_append]
  exact parseJsonStr_encode s X

theorem parseNumField_encode (label : List Char) (q : ℚ) (X : List Char)
    (hq : decOk q = true) (hb : numBoundary X = true) :
    parseNumField label (label ++ (jsNumToChars q ++ X)) = some (q, X) := by
  rw [parseNumField, expectLit_append]
  exact parseJsonNumber_encode q hq X hb

theorem parseItem_encode (it : CartItem) (rest : List Char)
    (hp : decOk it.price = true) (hs : decOk it.shipping = true)
    (hqt : decOk it.quantity = true) :
    parseItem (encodeItem it ++ rest) = some (it, rest) := by
  have e1 : encodeItem it ++ rest =
      ([lbrace] ++ "\"id\":".data) ++ (encodeJsonString it.id ++
        (",\"name\":".data ++ (encodeJsonString it.name ++
        (",\"price\":".data ++ (jsNumToChars it.price ++
        (",\"shipping\":".data ++ (jsNumToChars it.shipping ++
        (",\"image\":".data ++ (encodeJsonString it.image ++
        (",\"size\":".data ++ (encodeJsonString it.size ++
        (",\"color\":".data ++ (encodeJsonString it.color ++
        (",\"quantity\":".data ++ (jsNumToChars it.quantity ++
        (",\"category\":".data ++ (encodeJsonString it.category ++
        ([rbrace] ++ rest)))))))))))))))))) := by
    simp [encodeItem, List.append_assoc]
  rw [parseItem, e1]
  rw [parseStrField_encode]
  simp only [Option.some_bind]
  rw [parseStrField_encode]
  simp only [Option.some_bind]
  rw [parseNumField_encode]
  simp only [Option.some_bind]
  rw [parseNumField_encode]
  simp only [Option.some_bind]
  rw [parseStrField_encode]
  simp only [Option.some_bind]
  rw [parseStrField_encode]
  simp only [Option.some_bind]
  rw [parseStrField_encode]
  simp only [Option.some_bind]
  rw [parseNumField_encode]
  simp only [Option.some_bind]
  rw [parseStrField_encode]
  simp only [Option.some_bind]
  rw [expectLit_append]
  simp only [Option.some_bind]
  all_goals first
    | rfl
    | exact hp
    | exact hs
    | exact hqt

theorem length_le_encodeItemsInner :
    ∀ items : List CartItem, items.length ≤ (encodeItemsInner items).length := by
  intro items
  induction items with
  | nil => simp [encodeItemsInner]
  | cons it its ih =>
    cases its with
    | nil => simp [encodeItemsInner]
    | cons b l =>
      rw [show encodeItemsInner (it :: b :: l) =
          encodeItem it ++ ',' :: encodeItemsInner (b :: l) from rfl]
      simp only [List.length_append, List.length_cons]
      have := ih
      simp only [List.length_cons] at this ⊢
      omega

theorem parseItemsAux_encode :
    ∀ (items : List CartItem), items ≠ [] →
      (∀ it ∈ items, decOk it.price = true ∧ decOk it.shipping = true ∧
        decOk it.quantity = true) →
      ∀ fuel : ℕ, items.length ≤ fuel →
        parseItemsAux fuel (encodeItemsInner items) = some (items, []) := by
  intro items
  induction items with
  | nil => intro h; exact absurd rfl h
  | cons it its ih =>
    intro _ hall fuel hfuel
    obtain ⟨h1, h2, h3⟩ := hall it (List.mem_cons_self it its)
    obtain ⟨f, rfl⟩ : ∃ f, fuel = f + 1 :=
      ⟨fuel - 1, by simp at hfuel; omega⟩
    cases its with
    | nil =>
      rw [show encodeItemsInner [it] = encodeItem it ++ [']'] from rfl]
      simp [parseItemsAux, parseItem_encode it [']'] h1 h2 h3]
    | cons it2 its2 =>
      rw [show encodeItemsInner (it :: it2 :: its2) =
          encodeItem it ++ ',' :: encodeItemsInner (it2 :: its2) from rfl]
      have hb := parseItem_encode it (',' :: encodeItemsInner (it2 :: its2)) h1 h2 h3
      simp only [parseItemsAux, hb]
      rw [ih (by simp) (fun x hx => hall x (List.mem_cons_of_mem _ hx)) f
        (by simp at hfuel ⊢; omega)]
      rfl

theorem decodeItems_encodeItems (items : List CartItem)
    (hall : ∀ it ∈ items, decOk it.price = true ∧ decOk it.shipping = true ∧
      decOk it.quantity = true) :
    decodeItems (encodeItems items) = some items := by
  cases items with
  | nil => rfl
  | cons it its =>
    obtain ⟨T0, hT0⟩ : ∃ T0, encodeItem it = lbrace :: T0 := by
      rw [encodeItem]
      simp only [List.append_assoc, List.singleton_append]
      exact ⟨_, rfl⟩
    obtain ⟨T, hT⟩ : ∃ T, encodeItemsInner (it :: its) = lbrace :: T := by
      cases its with
      | nil =>
        refine ⟨T0 ++ [']'], ?_⟩
        rw [show encodeItemsInner [it] = encodeItem it ++ [']'] from rfl, hT0]
        rfl
      | cons b l =>
        refine ⟨T0 ++ ',' :: encodeItemsInner (b :: l), ?_⟩
        rw [show encodeItemsInner (it :: b :: l) =
            encodeItem it ++ ',' :: encodeItemsInner (b :: l) from rfl, hT0]
        rfl
    have hdata : (encodeItems (it :: its)).data =
        '[' :: lbrace :: T := by
      rw [encodeItems, ← hT]
    rw [decodeItems, hdata]
    have hfuel : (it :: its).length ≤ (lbrace :: T).length + 1 := by
      have := length_le_encodeItemsInner (it :: its)
      rw [hT] at this
      simpa using Nat.le_succ_of_le this
    have hp := parseItemsAux_encode (it :: its) (by simp) hall
      ((lbrace :: T).length + 1) hfuel
    rw [hT] at hp
    have hne : lbrace :: T ≠ [']'] := by
      intro h
      injection h with h1 h2
      exact absurd h1 (by decide)
    simp only [List.length_cons] at hp
    simp [hp, hne]

/-- C8: saving the cart and loading it back through the same storage key
reconstructs the identical line-item list, for every item list whose
numeric fields have finite decimal expansions (as every JavaScript number
does) and every prior storage content. -/
theorem cart_save_load_roundtrip :
    ∀ (items : List CartItem) (storage : Store),
      (∀ it ∈ items, decOk it.price = true ∧ decOk it.shipping = true ∧
        decOk it.quantity = true) →
      (cartLoad (cartSave ⟨items, storage⟩)).items = items := by
  intro items storage hall
  simp only [cartSave, cartLoad]
  rw [storeGet_storeSet]
  have hne : ¬(encodeItems items = "") := by
    rw [encodeItems]
    intro h
    have h2 := congrArg String.data h
    simp at h2
  simp [hne, decodeItems_encodeItems items hall]

/-- Witness for C8: the two-line example cart survives a save/load cycle. -/
theorem cart_save_load_roundtrip_witness :
    (cartLoad (cartSave ⟨exampleCart.items, exampleCart.storage⟩)).items =
      exampleCart.items :=
  cart_save_load_roundtrip exampleCart.items exampleCart.storage (by
    intro it hit
    have h2 : it = (⟨"p1", "Tee A", 100, 10, "imgA", "M", "Black", 2,
          "T-Shirts"⟩ : CartItem) ∨
        it = ⟨"p2", "Cap B", 50, 5, "imgB", "One Size", "Navy", 1, "Caps"⟩ := by
      simpa [exampleCart] using hit
    rcases h2 with rfl | rfl
    · exact ⟨by with_unfolding_all rfl, by with_unfolding_all rfl,
        by with_unfolding_all rfl⟩
    · exact ⟨by with_unfolding_all rfl, by with_unfolding_all rfl,
        by with_unfolding_all rfl⟩)
